import Mathlib

/-!
# Account registry of the tray user model

A shallow embedding of `src/gui/tray/UserModel.cpp`: the `User` session object and the
`UserModel` registry (`_users`, `_currentUserId`, `_init`) with its mutators `addUser`,
`buildUserList`, `switchCurrentUser` and `removeAccount`, the slots `slotAddError` and
`slotItemCompleted` that feed the activity model of a session, and the methods `server` and
`avatar`.

Modelling conventions.

* An account (`AccountStatePtr`, compared through `account()`) is an opaque identity, a `Nat`.
* `QList<User*>` is a `List User`.  Every element is created by `new User(...)` in `addUser` and
  is never shared or deleted, so the pointers in the list are pairwise distinct and a list of
  values is faithful.
* Indices are C++ `int`s, here `Int`; a list never holds more than `2^31` sessions.
* `_users[i]` with `i` outside `0 .. size-1` is an assertion failure in `QList::operator[]`
  (undefined behaviour in release builds).  An operation that evaluates such an access stops
  there: its outcome is `Outcome.outOfRange m`, with `m` the registry as it was at that access.
* Signals, row notifications and requests to the collaborators are recorded, oldest first, in
  the `emitted` trace of the registry.
* `QString` is a Lean `String`; `QString::replace` scans its character list.
* The class `ActivityListModel` is outside the sources: the slots take its three methods as a
  parameter, and `ActivityListModel.appending` gives them the meaning the spec describes.
-/

namespace OCC

/-- Identity of an account, as compared by `_users[i]->account() == user->account()`. -/
abbrev AccountId := Nat

/-- Signals, model notifications and collaborator requests issued by the registry. -/
inductive Effect where
  | beginInsertRows (first last : Int)
  | endInsertRows
  | beginRemoveRows (first last : Int)
  | endRemoveRows
  | refreshCurrentUserGui
  | newUserSelected
  | signOutByUi (account : AccountId)
  | deleteAccount (account : AccountId)
  | save
  deriving DecidableEq, Repr

/-- `QString`, as a Lean string. -/
abbrev QString := String

/-- `QDateTime`, as a point on the clock. -/
abbrev QDateTime := Nat

/-- The values of `SyncFileItem::Status` that `slotItemCompleted` names; every other value of
the enumeration (declared in a header outside the sources) is `other code`. -/
inductive SyncFileItem.Status where
  | NoStatus
  | Success
  | FileIgnored
  | other (code : Nat)
  deriving DecidableEq, Repr

/-- The fields of a `SyncFileItem` read by `slotItemCompleted`. -/
structure SyncFileItem where
  _file : QString
  _originalFile : QString
  _status : SyncFileItem.Status
  _errorString : QString
  deriving DecidableEq, Repr

/-- The value `SyncResult::Error`; every other value of `SyncResult::Status` is `other code`. -/
inductive SyncResult.Status where
  | Error
  | other (code : Nat)
  deriving DecidableEq, Repr

/-- The value `ErrorCategory::InsufficientRemoteStorage`; every other category is
`other code`. -/
inductive ErrorCategory where
  | InsufficientRemoteStorage
  | other (code : Nat)
  deriving DecidableEq, Repr

/-- The values of `Activity::Type` assigned by the slots of `User`. -/
inductive ActivityType where
  | SyncResultType
  | SyncFileItemType
  | other (code : Nat)
  deriving DecidableEq, Repr

/-- The integer field `Activity::_status`, which receives either a `SyncResult::Status` or a
`SyncFileItem::Status`. -/
inductive ActivityStatus where
  | ofSyncResult (s : SyncResult.Status)
  | ofSyncFileItem (s : SyncFileItem.Status)
  deriving DecidableEq, Repr

/-- The record `ActivityLink`. -/
structure ActivityLink where
  _label : QString
  _link : QString
  _verb : QString
  _isPrimary : Bool
  deriving DecidableEq, Repr

/-- The record `Activity`, with the fields the slots of `User` assign. -/
structure Activity where
  _type : ActivityType
  _status : ActivityStatus
  _dateTime : QDateTime
  _subject : QString
  _message : QString
  _link : QString
  _accName : QString
  _file : QString
  _folder : QString
  _links : List ActivityLink
  deriving DecidableEq, Repr

/-- Modelled from the spec: the class `ActivityListModel` is not among the sources. The spec
describes the feed as insertion-ordered records with a success, an error and an ignored
partition, so its state is three lists of records. -/
structure ActivityListModel where
  syncFileItemList : List Activity
  errorList : List Activity
  ignoredList : List Activity
  deriving DecidableEq, Repr

/-- Modelled from the spec: `new ActivityListModel(account)`, the feed created with its session,
holds no record. -/
def ActivityListModel.new : ActivityListModel :=
  { syncFileItemList := [], errorList := [], ignoredList := [] }

/-- The `User` object: the account it is bound to, its `_isCurrentUser` flag and its
`_activityModel`. -/
structure User where
  _account : AccountId
  _isCurrentUser : Bool
  _activityModel : ActivityListModel
  deriving DecidableEq, Repr

/-- The constructor `User::User(account, isCurrent)`. -/
def User.new (account : AccountId) (isCurrent : Bool) : User :=
  { _account := account, _isCurrentUser := isCurrent, _activityModel := ActivityListModel.new }

/-- The accessor `User::account()`. -/
def User.account (u : User) : AccountId := u._account

/-- The accessor `User::isCurrentUser()`. -/
def User.isCurrentUser (u : User) : Bool := u._isCurrentUser

/-- The mutator `User::setCurrentUser(isCurrent)`: `_isCurrentUser = isCurrent`. -/
def User.setCurrentUser (u : User) (isCurrent : Bool) : User :=
  { u with _isCurrentUser := isCurrent }

/-- The registry `UserModel`: session list, current index, one-shot flag and effect trace. -/
structure UserModel where
  _users : List User
  _currentUserId : Int
  _init : Bool
  emitted : List Effect
  deriving DecidableEq, Repr

/-- Result of an operation that indexes `_users`: it ran to completion, or it stopped at an
out-of-range `_users[...]`; the registry carried is the one at that point. -/
inductive Outcome where
  | done (m : UserModel)
  | outOfRange (m : UserModel)
  deriving DecidableEq, Repr

/-- Sequencing of registry operations: the next one runs only after a completed one. -/
def Outcome.andThen (o : Outcome) (f : UserModel → Outcome) : Outcome :=
  match o with
  | .done m => f m
  | .outOfRange m => .outOfRange m

/-- Modelled from the spec: the member initialiser of `_init` lives in `UserModel.h`, which is
not among the sources; the spec calls it a one-time initialisation flag consumed by the first
population, so a fresh registry has it set.  `_users` starts empty and `_currentUserId()` is
value-initialised to `0`. -/
def UserModel.empty : UserModel :=
  { _users := [], _currentUserId := 0, _init := true, emitted := [] }

/-- The element `users[i]` for a C++ `int` index: `none` when `i` is out of range. -/
def userAt (users : List User) (i : Int) : Option User :=
  if i < 0 then none else users[i.toNat]?

/-- Writes `u` at `users[i]`; used only after `userAt users i` succeeded. -/
def setUserAt (users : List User) (i : Int) (u : User) : List User :=
  users.set i.toNat u

/-- A valid session index: `0 <= i < _users.size()`. -/
def UserModel.validIndex (m : UserModel) (i : Int) : Prop :=
  0 ≤ i ∧ i < (m._users.length : Int)

instance (m : UserModel) (i : Int) : Decidable (m.validIndex i) := by
  unfold UserModel.validIndex; infer_instance

/-- The query `UserModel::numUsers()`. -/
def UserModel.numUsers (m : UserModel) : Int := m._users.length

/-- The query `UserModel::rowCount()`. -/
def UserModel.rowCount (m : UserModel) : Int := m._users.length

/-- The query `UserModel::currentUserId()`. -/
def UserModel.currentUserId (m : UserModel) : Int := m._currentUserId

/-- The scan of `addUser`: `containsUser` becomes true at every match and the loop goes on
(`continue`) to the end of the list. -/
def containsUserScan (users : List User) (user : AccountId) : Bool :=
  users.foldl (fun containsUser u => if u.account = user then true else containsUser) false

/-- The value of `_users.indexOf(_users.last())`: the pointer just appended was returned by
`new`, so it equals no earlier element and the first match is the last position. -/
def indexOfLast (users : List User) : Int := (users.length : Int) - 1

/-- The mutator `UserModel::addUser(user, isCurrent)`. -/
def UserModel.addUser (m : UserModel) (user : AccountId) (isCurrent : Bool) : UserModel :=
  if containsUserScan m._users user then m
  else
    let users := m._users ++ [User.new user isCurrent]
    { m with
      _users := users
      _currentUserId := if isCurrent then indexOfLast users else m._currentUserId
      emitted := m.emitted ++ [Effect.beginInsertRows m.rowCount m.rowCount, Effect.endInsertRows] }

/-- The slot `UserModel::buildUserList()`, with `accounts` the list returned by
`AccountManager::instance()->accounts()`.  `_users.first()` asserts a non-empty list. -/
def UserModel.buildUserList (m : UserModel) (accounts : List AccountId) : Outcome :=
  let m1 := accounts.foldl (fun s a => s.addUser a false) m
  if m1._init then
    match m1._users with
    | [] => .outOfRange m1
    | u :: rest => .done { m1 with _users := u.setCurrentUser true :: rest, _init := false }
  else .done m1

/-- The mutator `UserModel::switchCurrentUser(id)`. -/
def UserModel.switchCurrentUser (m : UserModel) (id : Int) : Outcome :=
  match userAt m._users m._currentUserId with
  | none => .outOfRange m
  | some old =>
    let m1 := { m with _users := setUserAt m._users m._currentUserId (old.setCurrentUser false) }
    match userAt m1._users id with
    | none => .outOfRange m1
    | some new =>
      .done { m1 with
        _users := setUserAt m1._users id (new.setCurrentUser true)
        _currentUserId := id
        emitted := m1.emitted ++ [Effect.refreshCurrentUserGui, Effect.newUserSelected] }

/-- The mutator `UserModel::removeAccount(id)`; `confirmed` tells whether the button clicked in
the confirmation dialog was "Remove connection". -/
def UserModel.removeAccount (m : UserModel) (id : Int) (confirmed : Bool) : Outcome :=
  match userAt m._users id with
  | none => .outOfRange m
  | some u =>
    if !confirmed then .done m
    else
      let switched :=
        if u.isCurrentUser && decide (m._users.length > 1) then
          (if id = 0 then m.switchCurrentUser 1 else m.switchCurrentUser 0)
        else .done m
      switched.andThen fun m1 =>
        match userAt m1._users id with
        | none => .outOfRange m1
        | some v =>
          .done { m1 with
            _users := m1._users.eraseIdx id.toNat
            emitted := m1.emitted ++
              [Effect.signOutByUi v.account, Effect.deleteAccount v.account, Effect.save,
               Effect.beginRemoveRows id id, Effect.endRemoveRows, Effect.refreshCurrentUserGui] }

/-- Registry states reached from the empty registry by completed runs of `buildUserList`,
`addUser`, `switchCurrentUser` with a valid index and confirmed `removeAccount` with a valid
index. -/
inductive Reachable : UserModel → Prop where
  | empty : Reachable UserModel.empty
  | buildUserList {m m1 : UserModel} (accounts : List AccountId) :
      Reachable m → m.buildUserList accounts = Outcome.done m1 → Reachable m1
  | addUser {m : UserModel} (user : AccountId) (isCurrent : Bool) :
      Reachable m → Reachable (m.addUser user isCurrent)
  | switchCurrentUser {m m1 : UserModel} (id : Int) :
      Reachable m → m.validIndex id → m.switchCurrentUser id = Outcome.done m1 → Reachable m1
  | removeAccount {m m1 : UserModel} (id : Int) :
      Reachable m → m.validIndex id → m.removeAccount id true = Outcome.done m1 → Reachable m1

/-- Number of sessions whose `isCurrentUser()` is true. -/
def UserModel.currentCount (m : UserModel) : Nat :=
  (m._users.filter fun u => u.isCurrentUser).length

/-- The account identities of the sessions, in list order. -/
def UserModel.accounts (m : UserModel) : List AccountId := m._users.map User.account

/-- The flag update made by a completed `switchCurrentUser(j)` on the session at position `k`,
with `c` the current index before the call. -/
def switchedUser (c j k : Nat) (u : User) : User :=
  if k = j then u.setCurrentUser true else if k = c then u.setCurrentUser false else u

/-- The switch that a confirmed `removeAccount(id)` performs before the removal, `u` being the
session at `id`. -/
def removalSwitch (m : UserModel) (id : Int) (u : User) : Outcome :=
  if u.isCurrentUser && decide (m._users.length > 1) then
    (if id = 0 then m.switchCurrentUser 1 else m.switchCurrentUser 0)
  else Outcome.done m

/-- The loop of `buildUserList`: `addUser(user)` for every account of the directory. -/
def addAll (m : UserModel) (accounts : List AccountId) : UserModel :=
  accounts.foldl (fun s a => s.addUser a false) m

/-- One completed user interaction with the registry; `removeAccount` is the confirmed one. -/
inductive Call where
  | buildUserList (accounts : List AccountId)
  | addUser (user : AccountId) (isCurrent : Bool)
  | switchCurrentUser (id : Int)
  | removeAccount (id : Int)
  deriving DecidableEq, Repr

/-- Runs one call on the registry. -/
def UserModel.call (m : UserModel) : Call → Outcome
  | .buildUserList accounts => m.buildUserList accounts
  | .addUser user isCurrent => .done (m.addUser user isCurrent)
  | .switchCurrentUser id => m.switchCurrentUser id
  | .removeAccount id => m.removeAccount id true

/-- Runs a sequence of calls, each on the registry left by the one before. -/
def UserModel.calls (m : UserModel) : List Call → Outcome
  | [] => .done m
  | c :: rest => (m.call c).andThen fun m1 => m1.calls rest

/-- The registry an outcome carries. -/
def Outcome.registry (o : Outcome) : UserModel :=
  match o with
  | .done m => m
  | .outOfRange m => m

/-- Two accounts loaded at start-up: sessions `[1 (current), 2]`, current index `0`. -/
def twoAccounts : UserModel :=
  (UserModel.empty.calls [Call.buildUserList [1, 2]]).registry

/-- Two accounts loaded, then the first (current) one removed. -/
def firstOfTwoRemoved : UserModel :=
  (UserModel.empty.calls [Call.buildUserList [1, 2], Call.removeAccount 0]).registry

/-- Three accounts loaded, the second selected, the first removed, then index `1` selected. -/
def reselectedAfterRemoval : UserModel :=
  (UserModel.empty.calls [Call.buildUserList [1, 2, 3], Call.switchCurrentUser 1,
    Call.removeAccount 0, Call.switchCurrentUser 1]).registry

/-- One account loaded, then a second one added with `isCurrent = true`. -/
def addedAsCurrent : UserModel :=
  (UserModel.empty.calls [Call.buildUserList [1], Call.addUser 2 true]).registry

/-- Exactly the session at index `j` has `isCurrentUser() = true`. -/
def UserModel.onlyCurrentAt (m : UserModel) (j : Int) : Prop :=
  ∀ (k : Nat) (u : User), m._users[k]? = some u → (u.isCurrentUser = true ↔ (k : Int) = j)

/-- No session other than the one at the current index has `isCurrentUser() = true`. -/
def UserModel.noStrayCurrent (m : UserModel) : Prop :=
  ∀ (k : Nat) (u : User), m._users[k]? = some u → u.isCurrentUser = true →
    (k : Int) = m._currentUserId

/-- Four accounts loaded, the second selected, the first removed: sessions
`[2 (current), 3, 4]` with current index `1`. -/
def staleIndexOfThree : UserModel :=
  (UserModel.empty.calls [Call.buildUserList [1, 2, 3, 4], Call.switchCurrentUser 1,
    Call.removeAccount 0]).registry

/-- The registry `staleIndexOfThree` after `switchCurrentUser(1)` and `switchCurrentUser(2)`. -/
def staleIndexOfThreeSwitched : UserModel :=
  (staleIndexOfThree.calls [Call.switchCurrentUser 1, Call.switchCurrentUser 2]).registry

/-- Three accounts loaded, the third selected, the first removed: sessions `[2, 3 (current)]`
with current index `2`. -/
def staleIndexOfTwo : UserModel :=
  (UserModel.empty.calls [Call.buildUserList [1, 2, 3], Call.switchCurrentUser 2,
    Call.removeAccount 0]).registry

/-- The registry `twoAccounts` as `switchCurrentUser(5)` leaves it at the out-of-range access:
the flag of the session at the current index is already cleared. -/
def twoAccountsAfterBadSwitch : UserModel :=
  (twoAccounts.switchCurrentUser 5).registry

/-- The flag update made by `switchCurrentUser` before it evaluates `_users[id]`: the session at
the current index `c` is unflagged. -/
def clearedUser (c : Int) (k : Nat) (u : User) : User :=
  if (k : Int) = c then u.setCurrentUser false else u

/-! ## Activity feed, server URL and avatar of a session -/

/-- The `Account` object behind an account state: the data the slots of `User` read. -/
structure Account where
  displayName : QString
  url : QString
  deriving DecidableEq, Repr

/-- The `AccountState` object: `ptr` is its identity (the pointer compared with
`_account.data()`; one account state exists per account, so it is the identity the registry
compares through `account()`), `account` the object `account()` returns. -/
structure AccountState where
  ptr : AccountId
  account : Account
  deriving DecidableEq, Repr

/-- The `Folder` object: what the slots of `User` read from it. -/
structure Folder where
  accountState : AccountState
  shortGuiLocalPath : QString
  path : QString
  deriving DecidableEq, Repr

/-- The collaborators the slots of `User` consult: `folder` is `FolderMan::instance()->folder`,
`tr` the translation of a source text, `currentDateTime` the clock, and `fromISODate d` the
value of `QDateTime::fromString(d.toString(), Qt::ISODate)`. -/
structure Collaborators where
  folder : QString → Option Folder
  tr : QString → QString
  currentDateTime : QDateTime
  fromISODate : QDateTime → QDateTime

/-- The three methods of `ActivityListModel` that the slots of `User` call. The class is not
among the sources, so the slots take its methods as a parameter. -/
structure ActivityListModel.Methods where
  addErrorToActivityList : ActivityListModel → Activity → ActivityListModel
  addSyncFileItemToActivityList : ActivityListModel → Activity → ActivityListModel
  addIgnoredFileToList : ActivityListModel → Activity → ActivityListModel

/-- Modelled from the spec: the methods of `ActivityListModel`, which is not among the sources.
The spec has each ingestion append exactly one record, in insertion order, to the success, the
error or the ignored partition of the feed. -/
def ActivityListModel.appending : ActivityListModel.Methods :=
  { addErrorToActivityList := fun f a => { f with errorList := f.errorList ++ [a] }
    addSyncFileItemToActivityList :=
      fun f a => { f with syncFileItemList := f.syncFileItemList ++ [a] }
    addIgnoredFileToList := fun f a => { f with ignoredList := f.ignoredList ++ [a] } }

/-- The call `s.prepend(t)` of `QString`. -/
def QString.prepend (s t : QString) : QString := t ++ s

/-- The scan of `QString::replace(before, after)` for a non-empty `before`: every occurrence
of `before`, found left to right and not overlapping an earlier one, is replaced by `after`;
`skip` counts the characters of a found occurrence still to be passed over. -/
def replaceFrom (before after : List Char) : Nat → List Char → List Char
  | _, [] => []
  | skip + 1, _ :: rest => replaceFrom before after skip rest
  | 0, c :: rest =>
    if before.isPrefixOf (c :: rest) then
      after ++ replaceFrom before after (before.length - 1) rest
    else c :: replaceFrom before after 0 rest

/-- The call `s.replace(before, after)` of `QString`, case sensitive. -/
def QString.replace (s before after : QString) : QString :=
  String.mk (replaceFrom before.data after.data 0 s.data)

/-- The record built by `User::slotAddError` once the folder is known to belong to the
session. -/
def User.errorActivity (env : Collaborators) (folderInstance : Folder)
    (folderAlias message : QString) (category : ErrorCategory) : Activity :=
  { _type := ActivityType.SyncResultType
    _status := ActivityStatus.ofSyncResult SyncResult.Status.Error
    _dateTime := env.fromISODate env.currentDateTime
    _subject := message
    _message := folderInstance.shortGuiLocalPath
    _link := folderInstance.shortGuiLocalPath
    _accName := folderInstance.accountState.account.displayName
    _file := ""
    _folder := folderAlias
    _links :=
      if category = ErrorCategory.InsufficientRemoteStorage then
        [{ _label := env.tr "Retry all uploads", _link := folderInstance.path, _verb := "",
           _isPrimary := true }]
      else [] }

/-- The slot `User::slotAddError(folderAlias, message, category)`. -/
def User.slotAddError (feed : ActivityListModel.Methods) (env : Collaborators) (u : User)
    (folderAlias message : QString) (category : ErrorCategory) : User :=
  match env.folder folderAlias with
  | none => u
  | some folderInstance =>
    if folderInstance.accountState.ptr = u._account then
      let activity := User.errorActivity env folderInstance folderAlias message category
      { u with _activityModel := feed.addErrorToActivityList u._activityModel activity }
    else u

/-- The record `User::slotItemCompleted` fills in before it looks at the status. -/
def User.itemActivity (env : Collaborators) (folderInstance : Folder) (folder : QString)
    (item : SyncFileItem) : Activity :=
  { _type := ActivityType.SyncFileItemType
    _status := ActivityStatus.ofSyncFileItem item._status
    _dateTime := env.currentDateTime
    _subject := ""
    _message := item._originalFile
    _link := folderInstance.accountState.account.url
    _accName := folderInstance.accountState.account.displayName
    _file := item._file
    _folder := folder
    _links := [] }

/-- The slot `User::slotItemCompleted(folder, item)`. -/
def User.slotItemCompleted (feed : ActivityListModel.Methods) (env : Collaborators) (u : User)
    (folder : QString) (item : SyncFileItem) : User :=
  match env.folder folder with
  | none => u
  | some folderInstance =>
    if folderInstance.accountState.ptr = u._account then
      let activity := User.itemActivity env folderInstance folder item
      if item._status = SyncFileItem.Status.NoStatus ∨
          item._status = SyncFileItem.Status.Success then
        let activity :=
          { activity with
            _message := QString.prepend (QString.prepend activity._message " ") (env.tr "Synced") }
        { u with _activityModel := feed.addSyncFileItemToActivityList u._activityModel activity }
      else
        let activity := { activity with _subject := item._errorString }
        if item._status = SyncFileItem.Status.FileIgnored then
          { u with _activityModel := feed.addIgnoredFileToList u._activityModel activity }
        else
          { u with _activityModel := feed.addErrorToActivityList u._activityModel activity }
    else u

/-- The signal `ProgressDispatcher::syncError`, connected by the constructor of `User` to the
slot `slotAddError` of every session. -/
def UserModel.syncError (feed : ActivityListModel.Methods) (env : Collaborators)
    (m : UserModel) (folderAlias message : QString) (category : ErrorCategory) : UserModel :=
  { m with
    _users := m._users.map fun u => User.slotAddError feed env u folderAlias message category }

/-- The signal `ProgressDispatcher::itemCompleted`, connected by the constructor of `User` to
the slot `slotItemCompleted` of every session. -/
def UserModel.itemCompleted (feed : ActivityListModel.Methods) (env : Collaborators)
    (m : UserModel) (folder : QString) (item : SyncFileItem) : UserModel :=
  { m with _users := m._users.map fun u => User.slotItemCompleted feed env u folder item }

/-- The method `User::server(shortened)`; `serverUrl` is `_account->account()->url().toString()`. -/
def User.server (serverUrl : QString) (shortened : Bool) : QString :=
  if shortened then
    QString.replace (QString.replace serverUrl "https://" "") "http://" ""
  else serverUrl

/-- A `QImage`: the null image, an image with pixel data, or the `width` by `height`
transparent image onto which the SVG resource `svg` has been rendered. -/
inductive QImage where
  | null
  | pixels (data : Nat)
  | rendered (width height : Nat) (svg : QString)
  deriving DecidableEq, Repr

/-- The method `QImage::isNull()`. -/
def QImage.isNull : QImage → Bool
  | .null => true
  | _ => false

/-- The method `User::avatar(whiteBg)`; `img` is the image returned by
`AvatarJob::makeCircularAvatar(_account->account()->avatar())`. -/
def User.avatar (img : QImage) (whiteBg : Bool) : QImage :=
  if img.isNull then
    QImage.rendered 128 128
      (if whiteBg then ":/client/theme/black/user.svg" else ":/client/theme/white/user.svg")
  else img

/-- The test `s.contains(sub)` of `QString`, case sensitive. -/
def QString.contains (s sub : QString) : Prop := sub.data <:+: s.data

instance (s sub : QString) : Decidable (QString.contains s sub) := by
  unfold QString.contains; infer_instance

/-- Follows the spec's words for `serverUrl(shortened = true)`: strips a leading `https://` or
`http://` scheme prefix, first occurrence only, and nothing else. -/
def stripLeadingScheme (u : QString) : QString :=
  if "https://".data.isPrefixOf u.data then String.mk (u.data.drop 8)
  else if "http://".data.isPrefixOf u.data then String.mk (u.data.drop 7)
  else u

/-- The event names a known folder that belongs to the account state `account`. -/
def eventBelongsTo (env : Collaborators) (folder : QString) (account : AccountId) : Prop :=
  ∃ folderInstance, env.folder folder = some folderInstance ∧
    folderInstance.accountState.ptr = account

/-- A folder of account `1` on `https://cloud.example.com`. -/
def docsFolder : Folder :=
  { accountState :=
      { ptr := 1, account := { displayName := "alice", url := "https://cloud.example.com" } }
    shortGuiLocalPath := "Docs"
    path := "/home/alice/Docs/" }

/-- Collaborators that know the single folder `docs`, with no translation loaded. -/
def docsOnly : Collaborators :=
  { folder := fun name => if name = "docs" then some docsFolder else none
    tr := fun text => text
    currentDateTime := 0
    fromISODate := fun d => d }

/-- A completed item for the file `/a/b.txt` with the given status. -/
def itemAB (status : SyncFileItem.Status) : SyncFileItem :=
  { _file := "/a/b.txt", _originalFile := "/a/b.txt", _status := status,
    _errorString := "locked" }

/-- Three accounts loaded, then the first (current) one removed. -/
def firstOfThreeRemoved : UserModel :=
  (UserModel.empty.calls [Call.buildUserList [1, 2, 3], Call.removeAccount 0]).registry

/-- Three accounts loaded and the third selected: sessions `[1, 2, 3 (current)]` with current
index `2`. -/
def thirdOfThreeSelected : UserModel :=
  (UserModel.empty.calls [Call.buildUserList [1, 2, 3], Call.switchCurrentUser 2]).registry

instance (env : Collaborators) (folder : QString) (account : AccountId) :
    Decidable (eventBelongsTo env folder account) :=
  match h : env.folder folder with
  | none => isFalse (by rintro ⟨fi, hf, -⟩; rw [h] at hf; cases hf)
  | some folderInstance =>
    if hp : folderInstance.accountState.ptr = account then isTrue ⟨folderInstance, h, hp⟩
    else isFalse (by rintro ⟨fi, hf, hp2⟩; rw [h] at hf; cases hf; exact hp hp2)

/-- Three accounts loaded at start-up: sessions `[1 (current), 2, 3]`, current index `0`. -/
def threeAccounts : UserModel :=
  (UserModel.empty.calls [Call.buildUserList [1, 2, 3]]).registry

/-- A registry whose only session belongs to account `2`. -/
def onlyAccountTwo : UserModel := UserModel.empty.addUser 2 false

/-- The collaborators `docsOnly` with a German translation loaded for the text
`Retry all uploads`. -/
def docsOnlyGerman : Collaborators :=
  { docsOnly with
    tr := fun text =>
      if text = "Retry all uploads" then "Alle Uploads erneut versuchen" else text }

/-! ## Lemmas on `addUser` -/

theorem containsUserScan_from (users : List User) (user : AccountId) (b : Bool) :
    users.foldl (fun containsUser u => if u.account = user then true else containsUser) b
      = (b || decide (user ∈ users.map User.account)) := by
  induction users generalizing b with
  | nil => simp
  | cons u rest ih =>
    simp only [List.foldl_cons, ih, List.map_cons, List.mem_cons]
    by_cases h : u.account = user
    · simp [h]
    · have h2 : ¬ user = u.account := fun e => h e.symm
      simp [h, h2]

theorem containsUserScan_iff (users : List User) (user : AccountId) :
    containsUserScan users user = true ↔ user ∈ users.map User.account := by
  unfold containsUserScan
  rw [containsUserScan_from]
  simp

theorem addUser_of_mem {m : UserModel} {user : AccountId} (isCurrent : Bool)
    (h : user ∈ m.accounts) : m.addUser user isCurrent = m := by
  have hs : containsUserScan m._users user = true := (containsUserScan_iff _ _).2 h
  simp [UserModel.addUser, hs]

theorem addUser_of_not_mem {m : UserModel} {user : AccountId} (isCurrent : Bool)
    (h : user ∉ m.accounts) :
    m.addUser user isCurrent =
      { m with
        _users := m._users ++ [User.new user isCurrent]
        _currentUserId := if isCurrent then (m._users.length : Int) else m._currentUserId
        emitted := m.emitted ++
          [Effect.beginInsertRows m._users.length m._users.length, Effect.endInsertRows] } := by
  have hs : containsUserScan m._users user = false := by
    cases hc : containsUserScan m._users user with
    | false => rfl
    | true => exact absurd ((containsUserScan_iff _ _).1 hc) h
  cases isCurrent <;> simp [UserModel.addUser, hs, indexOfLast, UserModel.rowCount]

theorem mem_accounts_addUser (m : UserModel) (user : AccountId) (isCurrent : Bool) :
    user ∈ (m.addUser user isCurrent).accounts := by
  by_cases h : user ∈ m.accounts
  · rw [addUser_of_mem isCurrent h]; exact h
  · rw [addUser_of_not_mem isCurrent h]; simp [UserModel.accounts, User.account, User.new]

theorem accounts_addUser (m : UserModel) (user : AccountId) (isCurrent : Bool) :
    (m.addUser user isCurrent).accounts =
      if user ∈ m.accounts then m.accounts else m.accounts ++ [user] := by
  by_cases h : user ∈ m.accounts
  · rw [addUser_of_mem isCurrent h, if_pos h]
  · rw [addUser_of_not_mem isCurrent h, if_neg h]
    simp [UserModel.accounts, User.account, User.new]

theorem nodup_accounts_addUser {m : UserModel} (user : AccountId) (isCurrent : Bool)
    (h : m.accounts.Nodup) : (m.addUser user isCurrent).accounts.Nodup := by
  rw [accounts_addUser]
  split
  · exact h
  · rename_i hn
    exact List.Nodup.append h (List.nodup_singleton _) (by simpa using hn)

/-! ## Lemmas on integer indexing -/

theorem userAt_natCast (users : List User) (n : Nat) : userAt users (n : Int) = users[n]? := by
  simp [userAt]

theorem userAt_eq_some {users : List User} {i : Int} {u : User} (h : userAt users i = some u) :
    ∃ n : Nat, i = (n : Int) ∧ n < users.length ∧ users[n]? = some u := by
  unfold userAt at h
  split at h
  · cases h
  · rename_i hi
    refine ⟨i.toNat, (Int.toNat_of_nonneg (by omega)).symm, ?_, h⟩
    exact (List.getElem?_eq_some.1 h).1

theorem userAt_isSome_of_valid {users : List User} {i : Int}
    (h : 0 ≤ i ∧ i < (users.length : Int)) : ∃ u, userAt users i = some u := by
  obtain ⟨n, rfl⟩ := Int.eq_ofNat_of_zero_le h.1
  have hn : n < users.length := by omega
  exact ⟨users[n], by rw [userAt_natCast]; exact List.getElem?_eq_getElem hn⟩

theorem userAt_eq_none_of_invalid {users : List User} {i : Int}
    (h : ¬ (0 ≤ i ∧ i < (users.length : Int))) : userAt users i = none := by
  cases hu : userAt users i with
  | none => rfl
  | some u =>
    obtain ⟨n, rfl, hn, -⟩ := userAt_eq_some hu
    exact absurd ⟨Int.natCast_nonneg n, by exact_mod_cast hn⟩ h

/-! ## Lemmas on `switchCurrentUser` -/

theorem switchedUser_account (c j k : Nat) (u : User) :
    (switchedUser c j k u).account = u.account := by
  unfold switchedUser
  split
  · rfl
  · split <;> rfl

theorem switchCurrentUser_spec (m : UserModel) (c j : Nat) (hc : m._currentUserId = (c : Int))
    (hcl : c < m._users.length) (hj : j < m._users.length) :
    ∃ m1, m.switchCurrentUser (j : Int) = Outcome.done m1 ∧
      m1._currentUserId = (j : Int) ∧ m1._init = m._init ∧
      m1.emitted = m.emitted ++ [Effect.refreshCurrentUserGui, Effect.newUserSelected] ∧
      m1._users.length = m._users.length ∧
      ∀ k : Nat, m1._users[k]? = (m._users[k]?).map (switchedUser c j k) := by
  have h1 : userAt m._users (c : Int) = some m._users[c] := by
    rw [userAt_natCast]; exact List.getElem?_eq_getElem hcl
  have hj2 : j < (m._users.set c (m._users[c].setCurrentUser false)).length := by
    rw [List.length_set]; exact hj
  have h2 : userAt (m._users.set c (m._users[c].setCurrentUser false)) (j : Int)
      = some (m._users.set c (m._users[c].setCurrentUser false))[j] := by
    rw [userAt_natCast]; exact List.getElem?_eq_getElem hj2
  refine ⟨{ m with
      _users := (m._users.set c (m._users[c].setCurrentUser false)).set j
        ((m._users.set c (m._users[c].setCurrentUser false))[j].setCurrentUser true)
      _currentUserId := (j : Int)
      emitted := m.emitted ++ [Effect.refreshCurrentUserGui, Effect.newUserSelected] },
    ?_, rfl, rfl, rfl, ?_, ?_⟩
  · simp only [UserModel.switchCurrentUser, hc, h1, setUserAt, Int.toNat_ofNat, h2]
  · simp
  · intro k
    simp only [List.getElem?_set, List.length_set, List.getElem_set]
    unfold switchedUser
    by_cases hkj : j = k
    · subst hkj
      by_cases hcj : c = j
      · subst hcj
        simp [hj, List.getElem?_eq_getElem hj, User.setCurrentUser]
      · simp [hj, hcj, List.getElem?_eq_getElem hj]
    · have hkj2 : ¬ k = j := fun e => hkj e.symm
      by_cases hck : c = k
      · subst hck
        simp [hkj, hkj2, hcl, List.getElem?_eq_getElem hcl]
      · have hck2 : ¬ k = c := fun e => hck e.symm
        cases hk : m._users[k]? <;> simp [hkj, hkj2, hck, hck2]

theorem switchCurrentUser_done {m m1 : UserModel} {id : Int}
    (h : m.switchCurrentUser id = Outcome.done m1) :
    ∃ c j : Nat, m._currentUserId = (c : Int) ∧ id = (j : Int) ∧
      c < m._users.length ∧ j < m._users.length := by
  unfold UserModel.switchCurrentUser at h
  cases h1 : userAt m._users m._currentUserId with
  | none => simp [h1] at h
  | some old =>
    simp only [h1] at h
    cases h2 : userAt (setUserAt m._users m._currentUserId (old.setCurrentUser false)) id with
    | none => simp [h2] at h
    | some new =>
      obtain ⟨c, hc, hcl, -⟩ := userAt_eq_some h1
      obtain ⟨j, hj, hjl, -⟩ := userAt_eq_some h2
      refine ⟨c, j, hc, hj, hcl, ?_⟩
      simpa [setUserAt] using hjl

theorem accounts_eq_of_getElem? {l1 l2 : List User} (f : Nat → User → User)
    (hf : ∀ k u, (f k u).account = u.account)
    (h : ∀ k : Nat, l1[k]? = (l2[k]?).map (f k)) :
    l1.map User.account = l2.map User.account := by
  apply List.ext_getElem?
  intro k
  rw [List.getElem?_map, List.getElem?_map, h k]
  cases l2[k]? with
  | none => rfl
  | some u => simp [hf]

theorem switchCurrentUser_accounts {m m1 : UserModel} {id : Int}
    (h : m.switchCurrentUser id = Outcome.done m1) : m1.accounts = m.accounts := by
  obtain ⟨c, j, hc, rfl, hcl, hjl⟩ := switchCurrentUser_done h
  obtain ⟨m2, h2, -, -, -, -, hk⟩ := switchCurrentUser_spec m c j hc hcl hjl
  rw [h] at h2
  cases h2
  exact accounts_eq_of_getElem? (switchedUser c j) (switchedUser_account c j) hk

/-! ## Lemmas on `removeAccount` -/

theorem removeAccount_eq (m : UserModel) (id : Int) (u : User)
    (hu : userAt m._users id = some u) :
    m.removeAccount id true = (removalSwitch m id u).andThen fun m1 =>
      match userAt m1._users id with
      | none => Outcome.outOfRange m1
      | some v =>
        Outcome.done { m1 with
          _users := m1._users.eraseIdx id.toNat
          emitted := m1.emitted ++
            [Effect.signOutByUi v.account, Effect.deleteAccount v.account, Effect.save,
             Effect.beginRemoveRows id id, Effect.endRemoveRows,
             Effect.refreshCurrentUserGui] } := by
  simp only [UserModel.removeAccount, hu, removalSwitch]
  rfl

theorem removalSwitch_done {m m1 : UserModel} {id : Int} {u : User}
    (h : removalSwitch m id u = Outcome.done m1) :
    m1 = m ∨ ∃ t, m.switchCurrentUser t = Outcome.done m1 := by
  unfold removalSwitch at h
  split at h
  · split at h
    · exact Or.inr ⟨1, h⟩
    · exact Or.inr ⟨0, h⟩
  · cases h; exact Or.inl rfl

theorem removeAccount_done {m m2 : UserModel} {id : Int}
    (h : m.removeAccount id true = Outcome.done m2) :
    ∃ m1, (m1 = m ∨ ∃ t, m.switchCurrentUser t = Outcome.done m1) ∧
      m2._users = m1._users.eraseIdx id.toNat ∧
      m2._currentUserId = m1._currentUserId ∧ m2._init = m1._init := by
  cases hu : userAt m._users id with
  | none => simp [UserModel.removeAccount, hu] at h
  | some u =>
    rw [removeAccount_eq m id u hu] at h
    cases hs : removalSwitch m id u with
    | outOfRange m1 => simp [hs, Outcome.andThen] at h
    | done m1 =>
      simp only [hs, Outcome.andThen] at h
      cases hv : userAt m1._users id with
      | none => simp [hv] at h
      | some v =>
        simp only [hv] at h
        cases h
        exact ⟨m1, removalSwitch_done hs, rfl, rfl, rfl⟩

theorem removeAccount_accounts {m m2 : UserModel} {id : Int}
    (h : m.removeAccount id true = Outcome.done m2) :
    m2.accounts = m.accounts.eraseIdx id.toNat := by
  obtain ⟨m1, h1, hu, -, -⟩ := removeAccount_done h
  have ha : m1.accounts = m.accounts := by
    rcases h1 with rfl | ⟨t, ht⟩
    · rfl
    · exact switchCurrentUser_accounts ht
  unfold UserModel.accounts at ha ⊢
  rw [hu, ← ha]
  apply List.ext_getElem?
  intro k
  simp only [List.getElem?_map, List.getElem?_eraseIdx]
  split <;> rfl

/-! ## Lemmas on `buildUserList` -/

theorem addAll_nil (m : UserModel) : addAll m [] = m := rfl

theorem addAll_cons (m : UserModel) (a : AccountId) (rest : List AccountId) :
    addAll m (a :: rest) = addAll (m.addUser a false) rest := rfl

theorem buildUserList_eq (m : UserModel) (accounts : List AccountId) :
    m.buildUserList accounts =
      if (addAll m accounts)._init then
        match (addAll m accounts)._users with
        | [] => Outcome.outOfRange (addAll m accounts)
        | u :: rest =>
          Outcome.done { addAll m accounts with
            _users := u.setCurrentUser true :: rest, _init := false }
      else Outcome.done (addAll m accounts) := rfl

theorem addUser_false_frame (m : UserModel) (a : AccountId) :
    (m.addUser a false)._init = m._init ∧
    (m.addUser a false)._currentUserId = m._currentUserId ∧
    ∃ extra, (m.addUser a false)._users = m._users ++ extra ∧
      ∀ u ∈ extra, u.isCurrentUser = false := by
  by_cases h : a ∈ m.accounts
  · rw [addUser_of_mem false h]
    exact ⟨rfl, rfl, [], by simp, by simp⟩
  · rw [addUser_of_not_mem false h]
    refine ⟨rfl, rfl, [User.new a false], rfl, ?_⟩
    intro u hu
    simp at hu
    subst hu
    rfl

theorem addAll_frame (m : UserModel) (accounts : List AccountId) :
    (addAll m accounts)._init = m._init ∧
    (addAll m accounts)._currentUserId = m._currentUserId ∧
    ∃ extra, (addAll m accounts)._users = m._users ++ extra ∧
      ∀ u ∈ extra, u.isCurrentUser = false := by
  induction accounts generalizing m with
  | nil => exact ⟨rfl, rfl, [], by simp [addAll_nil], by simp⟩
  | cons a rest ih =>
    rw [addAll_cons]
    obtain ⟨hi, hc, e1, he1, hf1⟩ := addUser_false_frame m a
    obtain ⟨hi2, hc2, e2, he2, hf2⟩ := ih (m.addUser a false)
    refine ⟨hi2.trans hi, hc2.trans hc, e1 ++ e2, ?_, ?_⟩
    · rw [he2, he1, List.append_assoc]
    · intro u hu
      rcases List.mem_append.1 hu with h | h
      · exact hf1 u h
      · exact hf2 u h

theorem addAll_accounts_nodup (m : UserModel) (accounts : List AccountId)
    (h : m.accounts.Nodup) : (addAll m accounts).accounts.Nodup := by
  induction accounts generalizing m with
  | nil => exact h
  | cons a rest ih =>
    rw [addAll_cons]
    exact ih _ (nodup_accounts_addUser a false h)

theorem buildUserList_accounts {m m1 : UserModel} {accounts : List AccountId}
    (h : m.buildUserList accounts = Outcome.done m1) :
    m1.accounts = (addAll m accounts).accounts := by
  rw [buildUserList_eq] at h
  split at h
  · split at h
    · cases h
    · rename_i u rest hu
      cases h
      simp [UserModel.accounts, hu, User.account, User.setCurrentUser]
  · cases h; rfl

/-! ## Reachable registries -/

theorem removeAccount_done_valid {m m1 : UserModel} {id : Int} {confirmed : Bool}
    (h : m.removeAccount id confirmed = Outcome.done m1) : m.validIndex id := by
  cases hu : userAt m._users id with
  | none => simp [UserModel.removeAccount, hu] at h
  | some u =>
    obtain ⟨n, rfl, hn, -⟩ := userAt_eq_some hu
    exact ⟨Int.natCast_nonneg n, by exact_mod_cast hn⟩

theorem switchCurrentUser_done_valid {m m1 : UserModel} {id : Int}
    (h : m.switchCurrentUser id = Outcome.done m1) : m.validIndex id := by
  obtain ⟨c, j, -, rfl, -, hj⟩ := switchCurrentUser_done h
  exact ⟨Int.natCast_nonneg j, by exact_mod_cast hj⟩

theorem reachable_call {m m1 : UserModel} (c : Call) (hm : Reachable m)
    (h : m.call c = Outcome.done m1) : Reachable m1 := by
  cases c with
  | buildUserList accounts => exact Reachable.buildUserList accounts hm h
  | addUser user isCurrent =>
    simp only [UserModel.call, Outcome.done.injEq] at h
    subst h
    exact Reachable.addUser user isCurrent hm
  | switchCurrentUser id => exact Reachable.switchCurrentUser id hm (switchCurrentUser_done_valid h) h
  | removeAccount id => exact Reachable.removeAccount id hm (removeAccount_done_valid h) h

theorem reachable_calls {m m1 : UserModel} (cs : List Call) (hm : Reachable m)
    (h : m.calls cs = Outcome.done m1) : Reachable m1 := by
  induction cs generalizing m with
  | nil =>
    simp only [UserModel.calls, Outcome.done.injEq] at h
    subst h
    exact hm
  | cons c rest ih =>
    simp only [UserModel.calls] at h
    cases hc : m.call c with
    | outOfRange m2 => simp [hc, Outcome.andThen] at h
    | done m2 =>
      simp only [hc, Outcome.andThen] at h
      exact ih (reachable_call c hm hc) h

/-! ## Claims -/

/-- C1 (the code breaks the claim). The claim says that in every reachable registry with at
least one session the current index is a valid index. The code does not keep this: after
`buildUserList` on the accounts `[1, 2]` and a confirmed `removeAccount(0)` the registry holds
the single session of account `2` while `_currentUserId` is `1`, because `removeAccount`
switches to index `1` and then removes index `0` without re-pointing the index. -/
theorem C1_removeAccount_leaves_current_index_out_of_range :
    UserModel.empty.calls [Call.buildUserList [1, 2], Call.removeAccount 0]
      = Outcome.done firstOfTwoRemoved ∧
    Reachable firstOfTwoRemoved ∧
    firstOfTwoRemoved._users = [User.new 2 true] ∧
    firstOfTwoRemoved.numUsers = 1 ∧
    firstOfTwoRemoved.currentUserId = 1 ∧
    ¬ firstOfTwoRemoved.validIndex firstOfTwoRemoved.currentUserId := by
  have h : UserModel.empty.calls [Call.buildUserList [1, 2], Call.removeAccount 0]
      = Outcome.done firstOfTwoRemoved := by decide
  exact ⟨h, reachable_calls _ Reachable.empty h, by decide, by decide, by decide, by decide⟩

/-- C2 (the code breaks the claim). The claim says that every reachable registry has at most
one session flagged current. Two reachable registries have two: after `buildUserList` on
`[1, 2, 3]`, `switchCurrentUser(1)`, a confirmed `removeAccount(0)` and `switchCurrentUser(1)`
both remaining sessions are flagged (the stale index makes the switch clear the wrong session);
and after `buildUserList` on `[1]` and `addUser(2, true)` both sessions are flagged (`addUser`
does not clear the flag of the previous current session). -/
theorem C2_two_sessions_flagged_current :
    (UserModel.empty.calls [Call.buildUserList [1, 2, 3], Call.switchCurrentUser 1,
      Call.removeAccount 0, Call.switchCurrentUser 1] = Outcome.done reselectedAfterRemoval ∧
     Reachable reselectedAfterRemoval ∧
     reselectedAfterRemoval._users = [User.new 2 true, User.new 3 true] ∧
     reselectedAfterRemoval.currentCount = 2) ∧
    (UserModel.empty.calls [Call.buildUserList [1], Call.addUser 2 true]
      = Outcome.done addedAsCurrent ∧
     Reachable addedAsCurrent ∧
     addedAsCurrent._users = [User.new 1 true, User.new 2 true] ∧
     addedAsCurrent.currentCount = 2) := by
  have h1 : UserModel.empty.calls [Call.buildUserList [1, 2, 3], Call.switchCurrentUser 1,
      Call.removeAccount 0, Call.switchCurrentUser 1] = Outcome.done reselectedAfterRemoval := by
    decide
  have h2 : UserModel.empty.calls [Call.buildUserList [1], Call.addUser 2 true]
      = Outcome.done addedAsCurrent := by decide
  exact ⟨⟨h1, reachable_calls _ Reachable.empty h1, by decide, by decide⟩,
    ⟨h2, reachable_calls _ Reachable.empty h2, by decide, by decide⟩⟩

/-- C3 (the code breaks the claim). The claim says that `switchCurrentUser(i)` followed by
`switchCurrentUser(j)` leaves exactly the session at index `j` flagged current. After
`buildUserList` on `[1, 2, 3, 4]`, `switchCurrentUser(1)` and a confirmed `removeAccount(0)`
the registry holds the sessions `[2 (current), 3, 4]` while `_currentUserId` is still `1`,
because `removeAccount` does not re-point the index. On it `switchCurrentUser(1)` followed by
`switchCurrentUser(2)` completes and leaves the session at index `0` still flagged beside the
one at index `2`. After `buildUserList` on `[1, 2, 3]`, `switchCurrentUser(2)` and a confirmed
`removeAccount(0)` the registry holds `[2, 3 (current)]` with the out-of-range index `2`, and
`switchCurrentUser(0)` stops at the out-of-range `_users[2]`. -/
theorem C3_two_switches_after_removeAccount_leave_two_flagged :
    UserModel.empty.calls [Call.buildUserList [1, 2, 3, 4], Call.switchCurrentUser 1,
      Call.removeAccount 0] = Outcome.done staleIndexOfThree ∧
    Reachable staleIndexOfThree ∧
    staleIndexOfThree._users = [User.new 2 true, User.new 3 false, User.new 4 false] ∧
    staleIndexOfThree.currentUserId = 1 ∧
    staleIndexOfThree.validIndex 1 ∧ staleIndexOfThree.validIndex 2 ∧
    (staleIndexOfThree.switchCurrentUser 1).andThen (fun m1 => m1.switchCurrentUser 2)
      = Outcome.done staleIndexOfThreeSwitched ∧
    staleIndexOfThreeSwitched._users = [User.new 2 true, User.new 3 false, User.new 4 true] ∧
    staleIndexOfThreeSwitched.currentUserId = 2 ∧
    staleIndexOfThreeSwitched.currentCount = 2 ∧
    ¬ staleIndexOfThreeSwitched.onlyCurrentAt 2 ∧
    UserModel.empty.calls [Call.buildUserList [1, 2, 3], Call.switchCurrentUser 2,
      Call.removeAccount 0] = Outcome.done staleIndexOfTwo ∧
    Reachable staleIndexOfTwo ∧
    staleIndexOfTwo.validIndex 0 ∧ staleIndexOfTwo.validIndex 1 ∧
    staleIndexOfTwo.switchCurrentUser 0 = Outcome.outOfRange staleIndexOfTwo := by
  have h : UserModel.empty.calls [Call.buildUserList [1, 2, 3, 4], Call.switchCurrentUser 1,
      Call.removeAccount 0] = Outcome.done staleIndexOfThree := by decide
  have h2 : UserModel.empty.calls [Call.buildUserList [1, 2, 3], Call.switchCurrentUser 2,
      Call.removeAccount 0] = Outcome.done staleIndexOfTwo := by decide
  refine ⟨h, reachable_calls _ Reachable.empty h, by decide, by decide, by decide, by decide,
    by decide, by decide, by decide, by decide, ?_, h2, reachable_calls _ Reachable.empty h2,
    by decide, by decide, by decide⟩
  intro ho
  have h0 := (ho 0 (User.new 2 true) (by decide)).1 (by decide)
  exact absurd h0 (by decide)

/-- Two switches on a registry that satisfies the index invariant. For every registry whose
current index is valid and in which no session other than the one at the current index is
flagged current, and for all valid indices `i` and `j` (equal or not), `switchCurrentUser(i)`
followed by `switchCurrentUser(j)` completes, leaves the session at index `j` flagged current
and every other session unflagged, and `currentUserId()` is `j`; the sessions keep their
accounts and order. -/
theorem switchCurrentUser_twice_of_noStrayCurrent (m : UserModel) (i j : Int)
    (hcur : m.validIndex m._currentUserId) (hflags : m.noStrayCurrent)
    (hi : m.validIndex i) (hj : m.validIndex j) :
    ∃ m1 m2, m.switchCurrentUser i = Outcome.done m1 ∧
      m1.switchCurrentUser j = Outcome.done m2 ∧
      m2.onlyCurrentAt j ∧ m2.currentUserId = j ∧ m2.accounts = m.accounts := by
  obtain ⟨c, hc⟩ := Int.eq_ofNat_of_zero_le hcur.1
  obtain ⟨a, rfl⟩ := Int.eq_ofNat_of_zero_le hi.1
  obtain ⟨b, rfl⟩ := Int.eq_ofNat_of_zero_le hj.1
  have hcl : c < m._users.length := by have := hcur.2; omega
  have hal : a < m._users.length := by have := hi.2; omega
  have hbl : b < m._users.length := by have := hj.2; omega
  obtain ⟨m1, h1, hc1, -, -, hl1, hk1⟩ := switchCurrentUser_spec m c a hc hcl hal
  obtain ⟨m2, h2, hc2, -, -, -, hk2⟩ :=
    switchCurrentUser_spec m1 a b hc1 (by omega) (by omega)
  refine ⟨m1, m2, h1, h2, ?_, hc2, ?_⟩
  · intro k u hu
    rw [hk2 k, hk1 k] at hu
    cases hu0 : m._users[k]? with
    | none => simp [hu0] at hu
    | some u0 =>
      simp only [hu0, Option.map_some', Option.some.injEq] at hu
      subst hu
      have hstray := hflags k u0 hu0
      by_cases hkb : k = b
      · subst hkb
        simp [switchedUser, User.setCurrentUser, User.isCurrentUser]
      · have hkb2 : ¬ (k : Int) = (b : Int) := by omega
        by_cases hka : k = a
        · subst hka
          simp [switchedUser, hkb, hkb2, User.setCurrentUser, User.isCurrentUser]
        · by_cases hkc : k = c
          · subst hkc
            simp [switchedUser, hkb, hkb2, hka, User.setCurrentUser, User.isCurrentUser]
          · have hne : ¬ (k : Int) = m._currentUserId := by omega
            have hf : u0.isCurrentUser = false := by
              cases hv : u0.isCurrentUser with
              | false => rfl
              | true => exact absurd (hstray hv) hne
            simp [switchedUser, hkb, hkb2, hka, hkc, hf]
  · rw [switchCurrentUser_accounts h2, switchCurrentUser_accounts h1]

/-- C4 (the code breaks the claim). The claim says that a confirmed `removeAccount(id)` of a
session flagged current, with at least two sessions, ends with a non-empty registry that has a
current session. After `buildUserList` on `[1, 2, 3]`, `switchCurrentUser(2)` and a confirmed
`removeAccount(0)` the registry holds the two sessions `[2, 3 (current)]` while
`_currentUserId` is still `2`, because `removeAccount` does not re-point the index. Index `1`
is valid and its session is flagged current, yet the confirmed `removeAccount(1)` never gets
to the removal: its `switchCurrentUser(0)` evaluates `_users[2]`, which is out of range, and
the session of account `3` is still in the list. -/
theorem C4_removeAccount_of_current_stops_on_stale_index :
    UserModel.empty.calls [Call.buildUserList [1, 2, 3], Call.switchCurrentUser 2,
      Call.removeAccount 0] = Outcome.done staleIndexOfTwo ∧
    Reachable staleIndexOfTwo ∧
    staleIndexOfTwo._users = [User.new 2 false, User.new 3 true] ∧
    staleIndexOfTwo.currentUserId = 2 ∧
    2 ≤ staleIndexOfTwo.numUsers ∧ staleIndexOfTwo.validIndex 1 ∧
    (userAt staleIndexOfTwo._users 1).map User.isCurrentUser = some true ∧
    staleIndexOfTwo.removeAccount 1 true = Outcome.outOfRange staleIndexOfTwo := by
  have h : UserModel.empty.calls [Call.buildUserList [1, 2, 3], Call.switchCurrentUser 2,
      Call.removeAccount 0] = Outcome.done staleIndexOfTwo := by decide
  exact ⟨h, reachable_calls _ Reachable.empty h, by decide, by decide, by decide, by decide,
    by decide, by decide⟩

/-- Removal of the current session on a registry whose current index is valid. For every
registry with at least two sessions whose current index is a valid index, and every valid
index `id` whose session is flagged current, a confirmed `removeAccount(id)` completes, the
registry is non-empty afterwards (it has one session less) and at least one remaining session
is flagged current (the one now at index `0`). -/
theorem removeAccount_of_current_keeps_a_current (m : UserModel) (id : Int)
    (hlen : 2 ≤ m.numUsers) (hcur : m.validIndex m._currentUserId) (hid : m.validIndex id)
    (hflag : (userAt m._users id).map User.isCurrentUser = some true) :
    ∃ m2, m.removeAccount id true = Outcome.done m2 ∧
      m2._users ≠ [] ∧ m2.numUsers = m.numUsers - 1 ∧
      (∃ v ∈ m2._users, v.isCurrentUser = true) ∧
      (m2._users[0]?).map User.isCurrentUser = some true := by
  obtain ⟨c, hc⟩ := Int.eq_ofNat_of_zero_le hcur.1
  obtain ⟨n, rfl⟩ := Int.eq_ofNat_of_zero_le hid.1
  have hcl : c < m._users.length := by have := hcur.2; omega
  have hnl : n < m._users.length := by have := hid.2; omega
  have hlen2 : 2 ≤ m._users.length := by unfold UserModel.numUsers at hlen; omega
  cases hu : userAt m._users (n : Int) with
  | none => simp [hu] at hflag
  | some u =>
    have huf : u.isCurrentUser = true := by simpa [hu] using hflag
    -- the index switched to before the removal
    obtain ⟨t, htl, htn, hsw⟩ : ∃ t : Nat, t < m._users.length ∧
        ((n = 0 ∧ t = 1) ∨ (n ≠ 0 ∧ t = 0)) ∧
        removalSwitch m (n : Int) u = m.switchCurrentUser (t : Int) := by
      by_cases hn0 : n = 0
      · refine ⟨1, by omega, Or.inl ⟨hn0, rfl⟩, ?_⟩
        subst hn0
        simp [removalSwitch, huf]
        omega
      · refine ⟨0, by omega, Or.inr ⟨hn0, rfl⟩, ?_⟩
        have hn0i : ¬ (n : Int) = 0 := by omega
        simp [removalSwitch, huf, hn0i]
        omega
    obtain ⟨m1, h1, -, -, -, hl1, hk1⟩ := switchCurrentUser_spec m c t hc hcl htl
    obtain ⟨v, hv⟩ := @userAt_isSome_of_valid m1._users (n : Int)
      ⟨Int.natCast_nonneg n, by rw [hl1]; exact_mod_cast hnl⟩
    have hrem := removeAccount_eq m (n : Int) u hu
    rw [hsw, h1] at hrem
    simp only [Outcome.andThen, hv] at hrem
    -- the session switched to is flagged and survives the removal at index 0
    have hflagged : (m1._users[t]?).map User.isCurrentUser = some true := by
      rw [hk1 t, List.getElem?_eq_getElem htl]
      simp [switchedUser, User.setCurrentUser, User.isCurrentUser]
    have hzero : ((m1._users.eraseIdx n)[0]?).map User.isCurrentUser = some true := by
      rw [List.getElem?_eraseIdx]
      rcases htn with ⟨hn0, ht⟩ | ⟨hn0, ht⟩
      · subst hn0; subst ht
        simpa using hflagged
      · subst ht
        have hpos : 0 < n := Nat.pos_of_ne_zero hn0
        simpa [hpos] using hflagged
    refine ⟨_, hrem, ?_, ?_, ?_, hzero⟩
    · intro he
      have := congrArg List.length he
      simp [List.length_eraseIdx, hl1, hnl] at this
      omega
    · simp [UserModel.numUsers, List.length_eraseIdx, hl1, hnl]
      omega
    · cases h0 : (m1._users.eraseIdx n)[0]? with
      | none => simp [h0] at hzero
      | some w =>
        refine ⟨w, List.getElem?_mem h0, ?_⟩
        simpa [h0] using hzero

/-- C10 (counterexample to the claim as stated). On the registry holding accounts
`[1 (current), 2]` the index `5` is not valid; `switchCurrentUser(5)` stops at the out-of-range
`_users[5]`, and by then the flag of the session at index `0` has been cleared: the flags are
not the same as before the call. The same happens for the negative index `-1`. -/
theorem C10_counterexample_invalid_switch_clears_current_flag :
    ¬ twoAccounts.validIndex 5 ∧
    twoAccounts._users = [User.new 1 true, User.new 2 false] ∧
    twoAccounts.switchCurrentUser 5 = Outcome.outOfRange twoAccountsAfterBadSwitch ∧
    twoAccountsAfterBadSwitch._users = [User.new 1 false, User.new 2 false] ∧
    twoAccountsAfterBadSwitch._users.map User.isCurrentUser
      ≠ twoAccounts._users.map User.isCurrentUser ∧
    ¬ twoAccounts.validIndex (-1) ∧
    twoAccounts.switchCurrentUser (-1) = Outcome.outOfRange twoAccountsAfterBadSwitch := by
  decide

/-- C10 (amended claim). For every registry and every index that is not a valid session index
(negative or `>= numUsers()`), `switchCurrentUser(index)` does not complete: it stops at an
out-of-range `_users[...]` access. At that point the current index, the one-shot flag, the
emitted notifications and the sessions with their accounts are as before the call, and every
`isCurrentUser` flag is as before except that of the session at the current index, which has
been cleared. -/
theorem C10_invalid_switch_stops_after_clearing_current (m : UserModel) (id : Int)
    (hid : ¬ m.validIndex id) :
    ∃ m1, m.switchCurrentUser id = Outcome.outOfRange m1 ∧
      m1.currentUserId = m.currentUserId ∧ m1._init = m._init ∧ m1.emitted = m.emitted ∧
      m1.accounts = m.accounts ∧
      ∀ k : Nat, m1._users[k]? = (m._users[k]?).map (clearedUser m._currentUserId k) := by
  cases hold : userAt m._users m._currentUserId with
  | none =>
    refine ⟨m, by simp [UserModel.switchCurrentUser, hold], rfl, rfl, rfl, rfl, ?_⟩
    intro k
    cases hk : m._users[k]? with
    | none => rfl
    | some u =>
      have hne : ¬ (k : Int) = m._currentUserId := by
        intro e
        rw [← e, userAt_natCast, hk] at hold
        cases hold
      simp [clearedUser, hne]
  | some old =>
    obtain ⟨c, hc, hcl, hcu⟩ := userAt_eq_some hold
    have hnone : userAt (setUserAt m._users m._currentUserId (old.setCurrentUser false)) id
        = none := by
      apply userAt_eq_none_of_invalid
      simpa [setUserAt, UserModel.validIndex] using hid
    have hk : ∀ k : Nat, (m._users.set c (old.setCurrentUser false))[k]?
        = (m._users[k]?).map (clearedUser m._currentUserId k) := by
      intro k
      rw [List.getElem?_set, hc]
      by_cases hck : c = k
      · subst hck
        simp [clearedUser, hcl, hcu]
      · have hck2 : ¬ (k : Int) = (c : Int) := by omega
        cases hu : m._users[k]? <;> simp [clearedUser, hck, hck2]
    refine ⟨{ m with _users := m._users.set c (old.setCurrentUser false) }, ?_, rfl, rfl, rfl,
      ?_, hk⟩
    · simp only [UserModel.switchCurrentUser, hold, hnone]
      simp [setUserAt, hc]
    · refine accounts_eq_of_getElem? (clearedUser m._currentUserId) ?_ hk
      intro k u
      unfold clearedUser
      split <;> rfl

/-- C10 (witness): the amended claim applied to the registry holding accounts
`[1 (current), 2]` and the invalid index `5`. -/
theorem C10_invalid_switch_stops_after_clearing_current_witness :
    ¬ twoAccounts.validIndex 5 ∧
    ∃ m1, twoAccounts.switchCurrentUser 5 = Outcome.outOfRange m1 ∧
      m1.currentUserId = twoAccounts.currentUserId ∧ m1._init = twoAccounts._init ∧
      m1.emitted = twoAccounts.emitted ∧ m1.accounts = twoAccounts.accounts ∧
      ∀ k : Nat, m1._users[k]?
        = (twoAccounts._users[k]?).map (clearedUser twoAccounts._currentUserId k) :=
  ⟨by decide, C10_invalid_switch_stops_after_clearing_current twoAccounts 5 (by decide)⟩

/-- C5. Adding the same account a second time, with either value of `isCurrent` in either
call, is a no-op: the registry after the second `addUser(a)` equals the registry after the
first one, so `numUsers()`, the session list, every `isCurrentUser` flag, the current index and
the emitted notifications are exactly as they were after the first call. -/
theorem C5_addUser_twice_is_addUser_once (m : UserModel) (a : AccountId)
    (isCurrent1 isCurrent2 : Bool) :
    (m.addUser a isCurrent1).addUser a isCurrent2 = m.addUser a isCurrent1 ∧
    ((m.addUser a isCurrent1).addUser a isCurrent2).numUsers
      = (m.addUser a isCurrent1).numUsers := by
  have h := addUser_of_mem isCurrent2 (mem_accounts_addUser m a isCurrent1)
  exact ⟨h, by rw [h]⟩

/-- C6. In every registry reached from the empty registry by `buildUserList`, `addUser`,
`switchCurrentUser` with a valid index and confirmed `removeAccount` with a valid index, the
account identities of the sessions are pairwise distinct: two positions holding sessions of the
same account are the same position. -/
theorem C6_reachable_accounts_pairwise_distinct (m : UserModel) (h : Reachable m) :
    m.accounts.Nodup ∧
    ∀ (i j : Nat) (u v : User), m._users[i]? = some u → m._users[j]? = some v →
      u.account = v.account → i = j := by
  have hnd : m.accounts.Nodup := by
    induction h with
    | empty => exact List.nodup_nil
    | buildUserList accounts _ hb ih =>
      rw [buildUserList_accounts hb]
      exact addAll_accounts_nodup _ accounts ih
    | addUser user isCurrent _ ih => exact nodup_accounts_addUser user isCurrent ih
    | switchCurrentUser id _ _ hs ih =>
      rw [switchCurrentUser_accounts hs]
      exact ih
    | removeAccount id _ _ hr ih =>
      rw [removeAccount_accounts hr]
      exact List.Nodup.sublist (List.eraseIdx_sublist _ _) ih
  refine ⟨hnd, ?_⟩
  intro i j u v hu hv huv
  have hi : i < m.accounts.length := by
    have := (List.getElem?_eq_some.1 hu).1
    simpa [UserModel.accounts] using this
  apply List.getElem?_inj hi hnd
  simp [UserModel.accounts, List.getElem?_map, hu, hv, huv]

/-- C6 (witness): the invariant applied to the registry reached by `buildUserList` on the
accounts `[1, 2]`. -/
theorem C6_reachable_accounts_pairwise_distinct_witness :
    Reachable twoAccounts ∧ twoAccounts.accounts.Nodup ∧
    ∀ (i j : Nat) (u v : User), twoAccounts._users[i]? = some u →
      twoAccounts._users[j]? = some v → u.account = v.account → i = j :=
  have h : Reachable twoAccounts :=
    reachable_calls [Call.buildUserList [1, 2]] Reachable.empty (by decide)
  ⟨h, C6_reachable_accounts_pairwise_distinct twoAccounts h⟩

/-- C8. For every registry with `n` sessions and every account `a` held by none of them,
`addUser(a, isCurrent)` appends: `numUsers()` becomes `n + 1`, the sessions at indices
`0 .. n-1` are unchanged, the new session for `a` (flagged as `isCurrent` says) sits at index
`n`, the insert notification carries the range `[n, n]`, and `currentUserId()` is `n` when
`isCurrent` is true and unchanged when it is false. -/
theorem C8_addUser_appends_new_account (m : UserModel) (a : AccountId) (isCurrent : Bool)
    (ha : a ∉ m.accounts) :
    (m.addUser a isCurrent).numUsers = m.numUsers + 1 ∧
    (m.addUser a isCurrent)._users = m._users ++ [User.new a isCurrent] ∧
    (∀ (k : Nat) (u : User), m._users[k]? = some u →
      (m.addUser a isCurrent)._users[k]? = some u) ∧
    userAt (m.addUser a isCurrent)._users m.numUsers = some (User.new a isCurrent) ∧
    (m.addUser a isCurrent).emitted
      = m.emitted ++ [Effect.beginInsertRows m.numUsers m.numUsers, Effect.endInsertRows] ∧
    (isCurrent = true → (m.addUser a isCurrent).currentUserId = m.numUsers) ∧
    (isCurrent = false → (m.addUser a isCurrent).currentUserId = m.currentUserId) ∧
    (m.addUser a isCurrent)._init = m._init := by
  rw [addUser_of_not_mem isCurrent ha]
  refine ⟨?_, rfl, ?_, ?_, rfl, ?_, ?_, rfl⟩
  · simp [UserModel.numUsers]
  · intro k u hk
    have hlt : k < m._users.length := (List.getElem?_eq_some.1 hk).1
    simp only []
    rw [List.getElem?_append_left hlt]
    exact hk
  · simp [UserModel.numUsers, userAt_natCast]
  · intro hc
    simp [UserModel.currentUserId, UserModel.numUsers, hc]
  · intro hc
    simp [UserModel.currentUserId, hc]

/-- C8 (witness): the claim applied to the registry holding accounts `[1, 2]` and the new
account `7` added with `isCurrent = true`. -/
theorem C8_addUser_appends_new_account_witness :
    (twoAccounts.addUser 7 true).numUsers = twoAccounts.numUsers + 1 ∧
    (twoAccounts.addUser 7 true)._users = twoAccounts._users ++ [User.new 7 true] ∧
    (∀ (k : Nat) (u : User), twoAccounts._users[k]? = some u →
      (twoAccounts.addUser 7 true)._users[k]? = some u) ∧
    userAt (twoAccounts.addUser 7 true)._users twoAccounts.numUsers
      = some (User.new 7 true) ∧
    (twoAccounts.addUser 7 true).emitted
      = twoAccounts.emitted ++
        [Effect.beginInsertRows twoAccounts.numUsers twoAccounts.numUsers,
         Effect.endInsertRows] ∧
    (true = true → (twoAccounts.addUser 7 true).currentUserId = twoAccounts.numUsers) ∧
    (true = false → (twoAccounts.addUser 7 true).currentUserId = twoAccounts.currentUserId) ∧
    (twoAccounts.addUser 7 true)._init = twoAccounts._init :=
  C8_addUser_appends_new_account twoAccounts 7 true (by decide)

/-- C7. For every registry and every account `a` not yet present, after `addUser(a)` (with
either value of `isCurrent`) a confirmed `removeAccount(i)`, `i` being the index of the session
of `a`, completes; `numUsers()` is then exactly one less than after the add, no remaining
session belongs to `a`, and the remaining sessions are the original ones in their original
order. With the default `isCurrent = false` the session list is the original list, flags
included. -/
theorem C7_addUser_then_removeAccount_restores_sessions (m : UserModel) (a : AccountId)
    (isCurrent : Bool) (ha : a ∉ m.accounts) :
    ∃ m2, (m.addUser a isCurrent).removeAccount m.numUsers true = Outcome.done m2 ∧
      userAt (m.addUser a isCurrent)._users m.numUsers = some (User.new a isCurrent) ∧
      m2.numUsers = (m.addUser a isCurrent).numUsers - 1 ∧
      a ∉ m2.accounts ∧ m2.accounts = m.accounts ∧
      (isCurrent = false → m2._users = m._users) := by
  have hadd := addUser_of_not_mem isCurrent ha
  have hlen : (m.addUser a isCurrent)._users.length = m._users.length + 1 := by
    rw [hadd]; simp
  have hu : userAt (m.addUser a isCurrent)._users (m._users.length : Int)
      = some (User.new a isCurrent) := by
    rw [hadd, userAt_natCast]; simp
  -- the switch made before the removal completes and keeps the list length
  obtain ⟨m1, hs, hl1, hfalse⟩ : ∃ m1,
      removalSwitch (m.addUser a isCurrent) (m._users.length : Int) (User.new a isCurrent)
        = Outcome.done m1 ∧
      m1._users.length = m._users.length + 1 ∧
      (isCurrent = false → m1 = m.addUser a isCurrent) := by
    cases isCurrent with
    | false => exact ⟨_, by simp [removalSwitch, User.new, User.isCurrentUser], hlen, fun _ => rfl⟩
    | true =>
      by_cases h0 : m._users.length = 0
      · refine ⟨m.addUser a true, ?_, hlen, fun _ => rfl⟩
        simp [removalSwitch, hlen, h0]
      · have hcur : (m.addUser a true)._currentUserId = (m._users.length : Int) := by
          rw [hadd]; simp
        obtain ⟨m1, h1, -, -, -, hl, -⟩ := switchCurrentUser_spec (m.addUser a true)
          m._users.length 0 hcur (by omega) (by omega)
        refine ⟨m1, ?_, by omega, fun h => by cases h⟩
        have h0i : ¬ (m._users.length : Int) = 0 := by omega
        simp only [removalSwitch, User.new, User.isCurrentUser, hlen, h0i]
        have hpos : 0 < m._users.length := Nat.pos_of_ne_zero h0
        simpa [hpos] using h1
  obtain ⟨v, hv⟩ := @userAt_isSome_of_valid m1._users (m._users.length : Int)
    ⟨Int.natCast_nonneg _, by rw [hl1]; push_cast; omega⟩
  have hrem := removeAccount_eq (m.addUser a isCurrent) (m._users.length : Int) _ hu
  simp only [hs, Outcome.andThen, hv] at hrem
  have hacc2 : (m.addUser a isCurrent).accounts = m.accounts ++ [a] := by
    rw [accounts_addUser, if_neg ha]
  have hmlen : m.accounts.length = m._users.length := by simp [UserModel.accounts]
  have herase : (m.accounts ++ [a]).eraseIdx m._users.length = m.accounts := by
    rw [← hmlen, List.eraseIdx_append_of_length_le (Nat.le_refl _)]
    simp
  have hacc := (removeAccount_accounts hrem).trans
    (by rw [hacc2, Int.toNat_ofNat, herase] :
      (m.addUser a isCurrent).accounts.eraseIdx (m._users.length : Int).toNat = m.accounts)
  refine ⟨_, hrem, hu, ?_, ?_, hacc, ?_⟩
  · simp [UserModel.numUsers, List.length_eraseIdx, hl1, hlen]
  · rw [hacc]; exact ha
  · intro hf
    rw [hfalse hf, hadd]
    simp [List.eraseIdx_append_of_length_le]

/-- C7 (witness): the claim applied to the registry holding accounts `[1, 2]` and the new
account `7`. -/
theorem C7_addUser_then_removeAccount_restores_sessions_witness :
    ∃ m2, (twoAccounts.addUser 7 false).removeAccount twoAccounts.numUsers true
        = Outcome.done m2 ∧
      userAt (twoAccounts.addUser 7 false)._users twoAccounts.numUsers
        = some (User.new 7 false) ∧
      m2.numUsers = (twoAccounts.addUser 7 false).numUsers - 1 ∧
      7 ∉ m2.accounts ∧ m2.accounts = twoAccounts.accounts ∧
      (false = false → m2._users = twoAccounts._users) :=
  C7_addUser_then_removeAccount_restores_sessions twoAccounts 7 false (by decide)

/-! ## The one-shot flag -/

theorem addAll_users_of_nodup (m : UserModel) (accounts : List AccountId)
    (hnd : accounts.Nodup) (hfresh : ∀ a ∈ accounts, a ∉ m.accounts) :
    (addAll m accounts)._users = m._users ++ accounts.map (fun a => User.new a false) := by
  induction accounts generalizing m with
  | nil => simp [addAll_nil]
  | cons a rest ih =>
    have ha : a ∉ m.accounts := hfresh a (List.mem_cons_self _ _)
    have hnd2 := List.nodup_cons.1 hnd
    rw [addAll_cons, ih _ hnd2.2]
    · rw [addUser_of_not_mem false ha]
      simp
    · intro b hb
      rw [accounts_addUser, if_neg ha]
      intro hmem
      rcases List.mem_append.1 hmem with h | h
      · exact hfresh b (List.mem_cons_of_mem _ hb) h
      · have hba : b = a := by simpa using h
        subst hba
        exact hnd2.1 hb

theorem addUser_init (m : UserModel) (a : AccountId) (isCurrent : Bool) :
    (m.addUser a isCurrent)._init = m._init := by
  unfold UserModel.addUser
  split <;> rfl

theorem buildUserList_of_init_false (m : UserModel) (accounts : List AccountId)
    (h : m._init = false) : m.buildUserList accounts = Outcome.done (addAll m accounts) := by
  rw [buildUserList_eq]
  have hi : (addAll m accounts)._init = false := (addAll_frame m accounts).1.trans h
  simp [hi]

theorem call_init_false {m m1 : UserModel} (c : Call) (h : m._init = false)
    (hc : m.call c = Outcome.done m1) : m1._init = false := by
  cases c with
  | buildUserList accounts =>
    simp only [UserModel.call, buildUserList_of_init_false m accounts h,
      Outcome.done.injEq] at hc
    subst hc
    exact (addAll_frame m accounts).1.trans h
  | addUser user isCurrent =>
    simp only [UserModel.call, Outcome.done.injEq] at hc
    subst hc
    exact (addUser_init m user isCurrent).trans h
  | switchCurrentUser id =>
    obtain ⟨c, j, hcc, rfl, hcl, hjl⟩ := switchCurrentUser_done hc
    obtain ⟨m2, h2, -, hi, -⟩ := switchCurrentUser_spec m c j hcc hcl hjl
    have he : m.switchCurrentUser (j : Int) = Outcome.done m1 := hc
    rw [he] at h2
    cases h2
    exact hi.trans h
  | removeAccount id =>
    obtain ⟨m2, hm2, -, -, hi⟩ := removeAccount_done hc
    rw [hi]
    rcases hm2 with rfl | ⟨t, ht⟩
    · exact h
    · obtain ⟨c, j, hcc, rfl, hcl, hjl⟩ := switchCurrentUser_done ht
      obtain ⟨m3, h3, -, hi3, -⟩ := switchCurrentUser_spec m c j hcc hcl hjl
      rw [ht] at h3
      cases h3
      exact hi3.trans h

theorem calls_init_false {m m1 : UserModel} (cs : List Call) (h : m._init = false)
    (hc : m.calls cs = Outcome.done m1) : m1._init = false := by
  induction cs generalizing m with
  | nil =>
    simp only [UserModel.calls, Outcome.done.injEq] at hc
    subst hc
    exact h
  | cons c rest ih =>
    simp only [UserModel.calls] at hc
    cases hcall : m.call c with
    | outOfRange m2 => simp [hcall, Outcome.andThen] at hc
    | done m2 =>
      simp only [hcall, Outcome.andThen] at hc
      exact ih (call_init_false c h hcall) hc

/-- C9. For every non-empty list of pairwise-distinct accounts, the first `buildUserList` on
the empty, uninitialised registry completes, creates one session per account in directory
order, leaves exactly the session at index `0` flagged current with `currentUserId() = 0`, and
consumes the one-shot flag. In every registry reached from there by completed calls, a later
`buildUserList` (on any directory contents) completes, keeps every existing session with its
`isCurrentUser` flag, creates the new sessions unflagged, and does not change the current
index. -/
theorem C9_buildUserList_selects_first_only_once (accounts : List AccountId)
    (hne : accounts ≠ []) (hnd : accounts.Nodup) :
    ∃ m1, UserModel.empty.buildUserList accounts = Outcome.done m1 ∧
      m1.accounts = accounts ∧ m1.onlyCurrentAt 0 ∧ m1.currentUserId = 0 ∧ m1._init = false ∧
      ∀ (cs : List Call) (m : UserModel), m1.calls cs = Outcome.done m →
        ∀ later : List AccountId, ∃ m2, m.buildUserList later = Outcome.done m2 ∧
          m2._init = false ∧ m2.currentUserId = m.currentUserId ∧
          ∃ extra, m2._users = m._users ++ extra ∧ ∀ u ∈ extra, u.isCurrentUser = false := by
  obtain ⟨a, rest, rfl⟩ := List.exists_cons_of_ne_nil hne
  have husers : (addAll UserModel.empty (a :: rest))._users
      = User.new a false :: rest.map (fun b => User.new b false) := by
    rw [addAll_users_of_nodup _ _ hnd (by simp [UserModel.accounts, UserModel.empty])]
    simp [UserModel.empty]
  obtain ⟨hinit, hcur, -⟩ := addAll_frame UserModel.empty (a :: rest)
  have hinit2 : (addAll UserModel.empty (a :: rest))._init = true := hinit
  have hbuild := buildUserList_eq UserModel.empty (a :: rest)
  rw [hinit2, if_pos rfl, husers] at hbuild
  simp only [] at hbuild
  refine ⟨_, hbuild, ?_, ?_, hcur, rfl, ?_⟩
  · simp [UserModel.accounts, User.setCurrentUser, User.new, User.account, Function.comp_def]
  · intro k u hk
    cases k with
    | zero =>
      simp only [List.getElem?_cons_zero, Option.some.injEq] at hk
      subst hk
      simp [User.setCurrentUser, User.isCurrentUser]
    | succ n =>
      simp only [List.getElem?_cons_succ, List.getElem?_map] at hk
      cases hr : rest[n]? with
      | none => simp [hr] at hk
      | some b =>
        simp only [hr, Option.map_some', Option.some.injEq] at hk
        subst hk
        have hne0 : ¬ ((n : Int) + 1 = 0) := by omega
        simp [User.new, User.isCurrentUser, hne0]
  · intro cs m hcs later
    have hm : m._init = false := calls_init_false cs rfl hcs
    obtain ⟨hi, hc, extra, he, hf⟩ := addAll_frame m later
    exact ⟨addAll m later, buildUserList_of_init_false m later hm, hi.trans hm, hc,
      extra, he, hf⟩

/-- C9 (witness): the claim applied to the directory `[1, 2]`. -/
theorem C9_buildUserList_selects_first_only_once_witness :
    ∃ m1, UserModel.empty.buildUserList [1, 2] = Outcome.done m1 ∧
      m1.accounts = [1, 2] ∧ m1.onlyCurrentAt 0 ∧ m1.currentUserId = 0 ∧ m1._init = false ∧
      ∀ (cs : List Call) (m : UserModel), m1.calls cs = Outcome.done m →
        ∀ later : List AccountId, ∃ m2, m.buildUserList later = Outcome.done m2 ∧
          m2._init = false ∧ m2.currentUserId = m.currentUserId ∧
          ∃ extra, m2._users = m._users ++ extra ∧ ∀ u ∈ extra, u.isCurrentUser = false :=
  C9_buildUserList_selects_first_only_once [1, 2] (by decide) (by decide)

/-! ## Lemmas on `QString::replace` -/

theorem replaceFrom_nil (before after : List Char) (skip : Nat) :
    replaceFrom before after skip [] = [] := by
  cases skip <;> rfl

theorem replaceFrom_skip (before after : List Char) (skip : Nat) (l : List Char) :
    replaceFrom before after skip l = replaceFrom before after 0 (l.drop skip) := by
  induction skip generalizing l with
  | zero => rfl
  | succ k ih =>
    cases l with
    | nil => simp [replaceFrom_nil]
    | cons c rest => simp only [replaceFrom, List.drop_succ_cons]; exact ih rest

theorem replaceFrom_of_absent (before after l : List Char) (h : ¬ before <:+: l) :
    replaceFrom before after 0 l = l := by
  induction l with
  | nil => rfl
  | cons c rest ih =>
    have hp : before.isPrefixOf (c :: rest) = false := by
      cases hb : before.isPrefixOf (c :: rest) with
      | false => rfl
      | true => exact absurd (List.isPrefixOf_iff_prefix.1 hb).isInfix h
    have hr : ¬ before <:+: rest := fun hi => h (hi.trans (List.suffix_cons c rest).isInfix)
    simp only [replaceFrom, hp]
    rw [ih hr]
    rfl

theorem replaceFrom_append_of_match (before after l : List Char) (hne : before ≠ []) :
    replaceFrom before after 0 (before ++ l) = after ++ replaceFrom before after 0 l := by
  obtain ⟨b, bs, rfl⟩ := List.exists_cons_of_ne_nil hne
  have hp : (b :: bs).isPrefixOf (b :: (bs ++ l)) = true :=
    List.isPrefixOf_iff_prefix.2 (List.prefix_append (b :: bs) l)
  have e : (b :: bs) ++ l = b :: (bs ++ l) := rfl
  rw [e]
  simp only [replaceFrom, hp, if_true, List.length_cons, Nat.add_sub_cancel]
  rw [replaceFrom_skip, List.drop_left]

theorem https_data : "https://".data = ['h', 't', 't', 'p', 's', ':', '/', '/'] := rfl

theorem http_data : "http://".data = ['h', 't', 't', 'p', ':', '/', '/'] := rfl

theorem https_not_infix_http_append (l : List Char) (h : ¬ "https://".data <:+: l) :
    ¬ "https://".data <:+: ("http://".data ++ l) := by
  rw [https_data] at h ⊢
  rw [http_data]
  rintro ⟨a, b, hab⟩
  rcases a with _ | ⟨a0, _ | ⟨a1, _ | ⟨a2, _ | ⟨a3, _ | ⟨a4, _ | ⟨a5, _ | ⟨a6, a⟩⟩⟩⟩⟩⟩⟩
  all_goals simp at hab
  obtain ⟨-, -, -, -, -, -, -, hl⟩ := hab
  exact h ⟨a, b, by simpa using hl⟩

theorem server_scheme_append (l : List Char) (h1 : ¬ "https://".data <:+: l)
    (h2 : ¬ "http://".data <:+: l) :
    User.server (String.mk ("https://".data ++ l)) true = String.mk l ∧
    User.server (String.mk ("http://".data ++ l)) true = String.mk l := by
  constructor
  · simp only [User.server, QString.replace, if_true]
    rw [replaceFrom_append_of_match _ _ _ (by decide), replaceFrom_of_absent _ _ _ h1]
    simp only [List.nil_append]
    rw [replaceFrom_of_absent _ _ _ h2]
  · simp only [User.server, QString.replace, if_true]
    rw [replaceFrom_of_absent _ _ _ (https_not_infix_http_append l h1)]
    simp only []
    rw [replaceFrom_append_of_match _ _ _ (by decide), replaceFrom_of_absent _ _ _ h2]
    rfl

theorem server_of_no_scheme (u : QString) (h1 : ¬ "https://".data <:+: u.data)
    (h2 : ¬ "http://".data <:+: u.data) : User.server u true = u := by
  simp only [User.server, QString.replace, if_true]
  rw [replaceFrom_of_absent _ _ _ h1, replaceFrom_of_absent _ _ _ h2]

/-- C15. For every string `h` that contains neither `https://` nor `http://`,
`server(shortened = true)` on the base URL `https://` followed by `h` returns `h`, and on
`http://` followed by `h` it returns `h`; and for every base URL `u`,
`server(shortened = false)` returns `u` unchanged. -/
theorem C15_server_shortened_strips_scheme (h u : QString)
    (h1 : ¬ QString.contains h "https://") (h2 : ¬ QString.contains h "http://") :
    User.server ("https://" ++ h) true = h ∧
    User.server ("http://" ++ h) true = h ∧
    User.server u false = u := by
  obtain ⟨e1, e2⟩ := server_scheme_append h.data h1 h2
  exact ⟨e1, e2, rfl⟩

/-- C15 (witness): `https://cloud.example.com` and `http://cloud.example.com` both shorten to
`cloud.example.com`, and the unshortened URL is returned as it is. -/
theorem C15_server_shortened_strips_scheme_witness :
    User.server ("https://" ++ "cloud.example.com") true = "cloud.example.com" ∧
    User.server ("http://" ++ "cloud.example.com") true = "cloud.example.com" ∧
    User.server "https://cloud.example.com" false = "https://cloud.example.com" :=
  C15_server_shortened_strips_scheme "cloud.example.com" "https://cloud.example.com"
    (by decide) (by decide)

/-- C16 (counterexample to the claim as stated). The base URL `https://a/http://b` starts with
`https://`; leading-prefix stripping would give `a/http://b`, but `server(shortened = true)`
returns `a/b`: the later `http://` is removed too. The base URL `xhttps://y` starts with neither
scheme, yet `server(shortened = true)` returns `xy` and not the URL unchanged. -/
theorem C16_counterexample_inner_scheme_is_removed :
    stripLeadingScheme "https://a/http://b" = "a/http://b" ∧
    User.server "https://a/http://b" true = "a/b" ∧
    User.server "https://a/http://b" true ≠ stripLeadingScheme "https://a/http://b" ∧
    stripLeadingScheme "xhttps://y" = "xhttps://y" ∧
    User.server "xhttps://y" true = "xy" ∧
    User.server "xhttps://y" true ≠ stripLeadingScheme "xhttps://y" := by
  decide

/-- C16 (amended claim). For every base URL `u` such that what remains of `u` after removing a
leading `https://` or `http://` (the whole of `u` when it starts with neither) contains neither
`https://` nor `http://`, `server(shortened = true)` returns exactly that remainder: `u` with
the one leading prefix removed when it starts with a scheme, and `u` unchanged otherwise. -/
theorem C16_server_shortened_is_prefix_strip_when_rest_is_clean (u : QString)
    (h1 : ¬ QString.contains (stripLeadingScheme u) "https://")
    (h2 : ¬ QString.contains (stripLeadingScheme u) "http://") :
    User.server u true = stripLeadingScheme u := by
  unfold stripLeadingScheme at h1 h2 ⊢
  by_cases hs : "https://".data.isPrefixOf u.data = true
  · simp only [hs, if_true] at h1 h2 ⊢
    obtain ⟨r, hr⟩ := List.isPrefixOf_iff_prefix.1 hs
    have hd : u.data.drop 8 = r := by
      rw [← hr]
      exact List.drop_left' rfl
    rw [hd] at h1 h2 ⊢
    have hu : u = String.mk ("https://".data ++ r) := by rw [hr]
    rw [hu]
    exact (server_scheme_append r h1 h2).1
  · simp only [hs] at h1 h2 ⊢
    by_cases ht : "http://".data.isPrefixOf u.data = true
    · simp only [ht, if_true] at h1 h2 ⊢
      obtain ⟨r, hr⟩ := List.isPrefixOf_iff_prefix.1 ht
      have hd : u.data.drop 7 = r := by
        rw [← hr]
        exact List.drop_left' rfl
      rw [hd] at h1 h2 ⊢
      have hu : u = String.mk ("http://".data ++ r) := by rw [hr]
      rw [hu]
      exact (server_scheme_append r h1 h2).2
    · simp only [ht] at h1 h2 ⊢
      exact server_of_no_scheme u h1 h2

/-- C16 (witness): the amended claim applied to `https://cloud.example.com`. -/
theorem C16_server_shortened_is_prefix_strip_when_rest_is_clean_witness :
    User.server "https://cloud.example.com" true
      = stripLeadingScheme "https://cloud.example.com" :=
  C16_server_shortened_is_prefix_strip_when_rest_is_clean "https://cloud.example.com"
    (by decide) (by decide)

/-- C17 (counterexample to the claim as stated). With no usable image and `whiteBg = true`,
`avatar` renders the black-themed glyph, not the white-themed one; with `whiteBg = false` it
renders the white-themed glyph, not the black-themed one. -/
theorem C17_counterexample_white_background_gets_black_glyph :
    User.avatar QImage.null true = QImage.rendered 128 128 ":/client/theme/black/user.svg" ∧
    User.avatar QImage.null true ≠ QImage.rendered 128 128 ":/client/theme/white/user.svg" ∧
    User.avatar QImage.null false = QImage.rendered 128 128 ":/client/theme/white/user.svg" ∧
    User.avatar QImage.null false
      ≠ QImage.rendered 128 128 ":/client/theme/black/user.svg" := by
  decide

/-- C17 (amended claim). Whenever the avatar-fetch collaborator yields no usable image,
`avatar(whiteBg)` returns a 128 by 128 image with the black-themed user glyph when `whiteBg` is
true and with the white-themed user glyph when `whiteBg` is false; when the collaborator does
yield an image, that image is returned unchanged whatever `whiteBg` is. -/
theorem C17_avatar_glyph_contrasts_with_background (img : QImage) (whiteBg : Bool) :
    User.avatar QImage.null true = QImage.rendered 128 128 ":/client/theme/black/user.svg" ∧
    User.avatar QImage.null false = QImage.rendered 128 128 ":/client/theme/white/user.svg" ∧
    (img.isNull = true →
      User.avatar img whiteBg = QImage.rendered 128 128
        (if whiteBg then ":/client/theme/black/user.svg"
          else ":/client/theme/white/user.svg")) ∧
    (img.isNull = false → User.avatar img whiteBg = img) := by
  refine ⟨rfl, rfl, ?_, ?_⟩
  · intro h
    simp [User.avatar, h]
  · intro h
    simp [User.avatar, h]

/-- C17 (witness): the amended claim at an image with pixel data and `whiteBg = true`. -/
theorem C17_avatar_glyph_contrasts_with_background_witness :
    (QImage.pixels 7).isNull = false ∧ User.avatar (QImage.pixels 7) true = QImage.pixels 7 ∧
    User.avatar QImage.null true = QImage.rendered 128 128 ":/client/theme/black/user.svg" :=
  have h := C17_avatar_glyph_contrasts_with_background (QImage.pixels 7) true
  ⟨rfl, h.2.2.2 rfl, h.1⟩

/-! ## Claims on the activity feed -/

/-- C11. For every per-item completion event whose folder belongs to the session's account and
whose item status is `Success` or `NoStatus`, the slot hands one record to
`addSyncFileItemToActivityList`; the record has kind `SyncFileItemType`, status equal to the
item's status, link equal to the account's base URL, and message equal to the localized
`Synced` marker, one space, then the item's original file path. -/
theorem C11_slotItemCompleted_success_record (feed : ActivityListModel.Methods)
    (env : Collaborators) (u : User) (folder : QString) (item : SyncFileItem)
    (folderInstance : Folder) (hf : env.folder folder = some folderInstance)
    (ha : folderInstance.accountState.ptr = u._account)
    (hs : item._status = SyncFileItem.Status.Success ∨
      item._status = SyncFileItem.Status.NoStatus) :
    ∃ record : Activity,
      User.slotItemCompleted feed env u folder item
        = { u with
            _activityModel := feed.addSyncFileItemToActivityList u._activityModel record } ∧
      record._type = ActivityType.SyncFileItemType ∧
      record._status = ActivityStatus.ofSyncFileItem item._status ∧
      record._link = folderInstance.accountState.account.url ∧
      record._message = env.tr "Synced" ++ " " ++ item._originalFile ∧
      record._file = item._file ∧ record._folder = folder := by
  have hs2 : item._status = SyncFileItem.Status.NoStatus ∨
      item._status = SyncFileItem.Status.Success := hs.symm
  refine ⟨{ User.itemActivity env folderInstance folder item with
    _message := QString.prepend (QString.prepend item._originalFile " ") (env.tr "Synced") },
    ?_, rfl, rfl, rfl, ?_, rfl, rfl⟩
  · simp only [User.slotItemCompleted, hf, ha, if_true, hs2]
    rfl
  · simp only [QString.prepend, String.append_assoc]

/-- C11 (witness): a `Success` item for `/a/b.txt` in the folder `docs` of account `1`, with no
translation loaded, gives the message `Synced /a/b.txt`. -/
theorem C11_slotItemCompleted_success_record_witness :
    ∃ record : Activity,
      User.slotItemCompleted ActivityListModel.appending docsOnly (User.new 1 true) "docs"
          (itemAB SyncFileItem.Status.Success)
        = { User.new 1 true with
            _activityModel := ActivityListModel.appending.addSyncFileItemToActivityList
              (User.new 1 true)._activityModel record } ∧
      record._message = "Synced /a/b.txt" ∧
      record._link = "https://cloud.example.com" :=
  have h := C11_slotItemCompleted_success_record ActivityListModel.appending docsOnly
    (User.new 1 true) "docs" (itemAB SyncFileItem.Status.Success) docsFolder rfl rfl
    (Or.inl rfl)
  h.elim fun record hr => ⟨record, hr.1, hr.2.2.2.2.1.trans (by decide), hr.2.2.2.1⟩

/-- C12 (counterexample to the claim as stated). With a German translation loaded, an
`InsufficientRemoteStorage` error in the folder `docs` of account `1` makes the slot hand to
`addErrorToActivityList` a record whose single link is labelled
`Alle Uploads erneut versuchen`, not `Retry all uploads`. -/
theorem C12_counterexample_label_is_translated :
    docsOnlyGerman.folder "docs" = some docsFolder ∧
    docsFolder.accountState.ptr = (User.new 1 true)._account ∧
    User.slotAddError ActivityListModel.appending docsOnlyGerman (User.new 1 true) "docs"
        "quota exceeded" ErrorCategory.InsufficientRemoteStorage
      = { User.new 1 true with
          _activityModel := ActivityListModel.appending.addErrorToActivityList
            (User.new 1 true)._activityModel
            (User.errorActivity docsOnlyGerman docsFolder "docs" "quota exceeded"
              ErrorCategory.InsufficientRemoteStorage) } ∧
    (User.errorActivity docsOnlyGerman docsFolder "docs" "quota exceeded"
        ErrorCategory.InsufficientRemoteStorage)._links
      = [{ _label := "Alle Uploads erneut versuchen", _link := "/home/alice/Docs/",
           _verb := "", _isPrimary := true }] ∧
    (User.errorActivity docsOnlyGerman docsFolder "docs" "quota exceeded"
        ErrorCategory.InsufficientRemoteStorage)._links.map ActivityLink._label
      ≠ ["Retry all uploads"] := by
  decide

/-- C12 (amended claim). For every folder-level error event whose folder belongs to the
session's account, the slot hands one record to `addErrorToActivityList`; the record has kind
`SyncResultType`, status `SyncResult::Error`, subject equal to the error message and message
and link equal to the folder's short local path. Its list of links holds exactly one element,
whose label is the localized text of `Retry all uploads` (the value of `tr` on it), with the
folder path as target and `isPrimary = true`, when the category is
`InsufficientRemoteStorage`, and is empty for every other category. -/
theorem C12_slotAddError_record (feed : ActivityListModel.Methods) (env : Collaborators)
    (u : User) (folderAlias message : QString) (category : ErrorCategory)
    (folderInstance : Folder) (hf : env.folder folderAlias = some folderInstance)
    (ha : folderInstance.accountState.ptr = u._account) :
    ∃ record : Activity,
      User.slotAddError feed env u folderAlias message category
        = { u with _activityModel := feed.addErrorToActivityList u._activityModel record } ∧
      record._type = ActivityType.SyncResultType ∧
      record._status = ActivityStatus.ofSyncResult SyncResult.Status.Error ∧
      record._subject = message ∧
      record._message = folderInstance.shortGuiLocalPath ∧
      record._link = folderInstance.shortGuiLocalPath ∧
      (category = ErrorCategory.InsufficientRemoteStorage →
        record._links = [{ _label := env.tr "Retry all uploads", _link := folderInstance.path,
                           _verb := "", _isPrimary := true }]) ∧
      (category ≠ ErrorCategory.InsufficientRemoteStorage → record._links = []) := by
  refine ⟨User.errorActivity env folderInstance folderAlias message category,
    ?_, rfl, rfl, rfl, rfl, rfl, ?_, ?_⟩
  · simp only [User.slotAddError, hf, ha, if_true]
  · intro hc
    simp [User.errorActivity, hc]
  · intro hc
    simp [User.errorActivity, hc]

/-- C12 (witness): an `InsufficientRemoteStorage` error in the folder `docs` of account `1`,
with no translation loaded, gives exactly one link, labelled `Retry all uploads`, primary, with
the folder path as target; a category other than that gives no link. -/
theorem C12_slotAddError_record_witness :
    (∃ record : Activity,
      User.slotAddError ActivityListModel.appending docsOnly (User.new 1 true) "docs"
          "quota exceeded" ErrorCategory.InsufficientRemoteStorage
        = { User.new 1 true with
            _activityModel := ActivityListModel.appending.addErrorToActivityList
              (User.new 1 true)._activityModel record } ∧
      record._subject = "quota exceeded" ∧
      record._links = [{ _label := "Retry all uploads", _link := "/home/alice/Docs/",
                         _verb := "", _isPrimary := true }]) ∧
    (∃ record : Activity,
      User.slotAddError ActivityListModel.appending docsOnly (User.new 1 true) "docs"
          "disk error" (ErrorCategory.other 0)
        = { User.new 1 true with
            _activityModel := ActivityListModel.appending.addErrorToActivityList
              (User.new 1 true)._activityModel record } ∧
      record._links = []) :=
  have h1 := C12_slotAddError_record ActivityListModel.appending docsOnly (User.new 1 true)
    "docs" "quota exceeded" ErrorCategory.InsufficientRemoteStorage docsFolder rfl rfl
  have h2 := C12_slotAddError_record ActivityListModel.appending docsOnly (User.new 1 true)
    "docs" "disk error" (ErrorCategory.other 0) docsFolder rfl rfl
  ⟨h1.elim fun record hr => ⟨record, hr.1, hr.2.2.2.1, hr.2.2.2.2.2.2.1 rfl⟩,
   h2.elim fun record hr => ⟨record, hr.1, hr.2.2.2.2.2.2.2 (by decide)⟩⟩

/-- C13. For every per-item completion event whose folder belongs to the session's account, the
slot calls exactly one of the three feed methods, once, chosen by the item's status: `NoStatus`
or `Success` goes to `addSyncFileItemToActivityList`, `FileIgnored` to `addIgnoredFileToList`,
and every other status to `addErrorToActivityList` with subject equal to the item's error
string. With the appending feed of the spec, exactly one record is appended to exactly that
list and the other two lists are unchanged. -/
theorem C13_slotItemCompleted_routes_by_status (env : Collaborators) (u : User)
    (folder : QString) (item : SyncFileItem) (folderInstance : Folder)
    (hf : env.folder folder = some folderInstance)
    (ha : folderInstance.accountState.ptr = u._account) :
    ∃ record : Activity,
      record._status = ActivityStatus.ofSyncFileItem item._status ∧
      record._file = item._file ∧
      (item._status = SyncFileItem.Status.NoStatus ∨
          item._status = SyncFileItem.Status.Success →
        (∀ feed : ActivityListModel.Methods, User.slotItemCompleted feed env u folder item
          = { u with
              _activityModel :=
                feed.addSyncFileItemToActivityList u._activityModel record }) ∧
        (User.slotItemCompleted ActivityListModel.appending env u folder item)._activityModel
          = { u._activityModel with
              syncFileItemList := u._activityModel.syncFileItemList ++ [record] }) ∧
      (item._status = SyncFileItem.Status.FileIgnored →
        (∀ feed : ActivityListModel.Methods, User.slotItemCompleted feed env u folder item
          = { u with
              _activityModel := feed.addIgnoredFileToList u._activityModel record }) ∧
        (User.slotItemCompleted ActivityListModel.appending env u folder item)._activityModel
          = { u._activityModel with ignoredList := u._activityModel.ignoredList ++ [record] } ∧
        record._subject = item._errorString) ∧
      (item._status ≠ SyncFileItem.Status.NoStatus →
        item._status ≠ SyncFileItem.Status.Success →
        item._status ≠ SyncFileItem.Status.FileIgnored →
        (∀ feed : ActivityListModel.Methods, User.slotItemCompleted feed env u folder item
          = { u with
              _activityModel := feed.addErrorToActivityList u._activityModel record }) ∧
        (User.slotItemCompleted ActivityListModel.appending env u folder item)._activityModel
          = { u._activityModel with errorList := u._activityModel.errorList ++ [record] } ∧
        record._subject = item._errorString) := by
  by_cases hs : item._status = SyncFileItem.Status.NoStatus ∨
      item._status = SyncFileItem.Status.Success
  · have hni : item._status ≠ SyncFileItem.Status.FileIgnored := by
      rcases hs with h | h <;> rw [h] <;> decide
    refine ⟨{ User.itemActivity env folderInstance folder item with
      _message := QString.prepend (QString.prepend item._originalFile " ") (env.tr "Synced") },
      rfl, rfl, ?_, ?_, ?_⟩
    · intro _
      have hall : ∀ feed : ActivityListModel.Methods,
          User.slotItemCompleted feed env u folder item
            = { u with
                _activityModel := feed.addSyncFileItemToActivityList u._activityModel
                  { User.itemActivity env folderInstance folder item with
                    _message := QString.prepend (QString.prepend item._originalFile " ")
                      (env.tr "Synced") } } := by
        intro feed
        simp only [User.slotItemCompleted, hf, ha, if_true, hs]
        rfl
      exact ⟨hall, by rw [hall]; rfl⟩
    · intro h
      exact absurd h hni
    · intro h1 h2 _
      rcases hs with h | h
      · exact absurd h h1
      · exact absurd h h2
  · have hn1 : item._status ≠ SyncFileItem.Status.NoStatus := fun h => hs (Or.inl h)
    have hn2 : item._status ≠ SyncFileItem.Status.Success := fun h => hs (Or.inr h)
    refine ⟨{ User.itemActivity env folderInstance folder item with
      _subject := item._errorString }, rfl, rfl, ?_, ?_, ?_⟩
    · intro h
      exact absurd h hs
    · intro hi
      have hall : ∀ feed : ActivityListModel.Methods,
          User.slotItemCompleted feed env u folder item
            = { u with
                _activityModel := feed.addIgnoredFileToList u._activityModel
                  { User.itemActivity env folderInstance folder item with
                    _subject := item._errorString } } := by
        intro feed
        simp only [User.slotItemCompleted, hf, ha, if_true, if_neg hs, if_pos hi]
      exact ⟨hall, by rw [hall]; rfl, rfl⟩
    · intro _ _ hi
      have hall : ∀ feed : ActivityListModel.Methods,
          User.slotItemCompleted feed env u folder item
            = { u with
                _activityModel := feed.addErrorToActivityList u._activityModel
                  { User.itemActivity env folderInstance folder item with
                    _subject := item._errorString } } := by
        intro feed
        simp only [User.slotItemCompleted, hf, ha, if_true, if_neg hs, if_neg hi]
      exact ⟨hall, by rw [hall]; rfl, rfl⟩

/-- C13 (witness): a `FileIgnored` item in the folder `docs` of account `1` appends one record,
with the item's error string as subject, to the ignored list and to no other list. -/
theorem C13_slotItemCompleted_routes_by_status_witness :
    ∃ record : Activity, record._subject = "locked" ∧
      (User.slotItemCompleted ActivityListModel.appending docsOnly (User.new 1 true) "docs"
          (itemAB SyncFileItem.Status.FileIgnored))._activityModel
        = { (User.new 1 true)._activityModel with
            ignoredList := (User.new 1 true)._activityModel.ignoredList ++ [record] } :=
  have h := C13_slotItemCompleted_routes_by_status docsOnly (User.new 1 true) "docs"
    (itemAB SyncFileItem.Status.FileIgnored) docsFolder rfl rfl
  h.elim fun record hr => ⟨record, (hr.2.2.2.1 rfl).2.2, (hr.2.2.2.1 rfl).2.1⟩

theorem slots_of_not_belongs (feed : ActivityListModel.Methods) (env : Collaborators)
    (u : User) (folder message : QString) (category : ErrorCategory) (item : SyncFileItem)
    (h : ¬ eventBelongsTo env folder u._account) :
    User.slotAddError feed env u folder message category = u ∧
    User.slotItemCompleted feed env u folder item = u := by
  cases hf : env.folder folder with
  | none => simp [User.slotAddError, User.slotItemCompleted, hf]
  | some folderInstance =>
    have hp : ¬ folderInstance.accountState.ptr = u._account :=
      fun hp => h ⟨folderInstance, hf, hp⟩
    simp [User.slotAddError, User.slotItemCompleted, hf, hp]

/-- C14. For every session and every sync event (folder error or item completion) whose folder
is unknown or belongs to an account other than the session's, both slots leave the session, and
so its activity feed, unchanged, whatever the feed methods do. Consequently an event that
belongs to the account of no session of the registry leaves the whole registry, with every
feed, unchanged. -/
theorem C14_foreign_event_changes_no_feed (feed : ActivityListModel.Methods)
    (env : Collaborators) (u : User) (m : UserModel) (folder message : QString)
    (category : ErrorCategory) (item : SyncFileItem)
    (hu : ¬ eventBelongsTo env folder u._account)
    (hm : ∀ v ∈ m._users, ¬ eventBelongsTo env folder v._account) :
    User.slotAddError feed env u folder message category = u ∧
    User.slotItemCompleted feed env u folder item = u ∧
    (User.slotAddError feed env u folder message category)._activityModel
      = u._activityModel ∧
    (User.slotItemCompleted feed env u folder item)._activityModel = u._activityModel ∧
    m.syncError feed env folder message category = m ∧
    m.itemCompleted feed env folder item = m := by
  obtain ⟨h1, h2⟩ := slots_of_not_belongs feed env u folder message category item hu
  refine ⟨h1, h2, by rw [h1], by rw [h2], ?_, ?_⟩
  · have hmap : m._users.map
        (fun v => User.slotAddError feed env v folder message category) = m._users := by
      conv => rhs; rw [← List.map_id m._users]
      apply List.map_congr_left
      intro v hv
      exact (slots_of_not_belongs feed env v folder message category item (hm v hv)).1
    simp only [UserModel.syncError, hmap]
  · have hmap : m._users.map
        (fun v => User.slotItemCompleted feed env v folder item) = m._users := by
      conv => rhs; rw [← List.map_id m._users]
      apply List.map_congr_left
      intro v hv
      exact (slots_of_not_belongs feed env v folder message category item (hm v hv)).2
    simp only [UserModel.itemCompleted, hmap]

/-- C14 (witness): events of the folder `docs`, which belongs to account `1`, and of the unknown
folder `music` leave the session of account `2` and the registry holding only that session
unchanged. -/
theorem C14_foreign_event_changes_no_feed_witness :
    (User.slotAddError ActivityListModel.appending docsOnly (User.new 2 false) "docs"
        "quota exceeded" ErrorCategory.InsufficientRemoteStorage = User.new 2 false ∧
     User.slotItemCompleted ActivityListModel.appending docsOnly (User.new 2 false) "docs"
        (itemAB SyncFileItem.Status.Success) = User.new 2 false ∧
     onlyAccountTwo.syncError ActivityListModel.appending docsOnly "docs" "quota exceeded"
        ErrorCategory.InsufficientRemoteStorage = onlyAccountTwo ∧
     onlyAccountTwo.itemCompleted ActivityListModel.appending docsOnly "docs"
        (itemAB SyncFileItem.Status.Success) = onlyAccountTwo) ∧
    (User.slotItemCompleted ActivityListModel.appending docsOnly (User.new 1 true) "music"
        (itemAB SyncFileItem.Status.Success) = User.new 1 true ∧
     twoAccounts.itemCompleted ActivityListModel.appending docsOnly "music"
        (itemAB SyncFileItem.Status.Success) = twoAccounts) :=
  have h1 := C14_foreign_event_changes_no_feed ActivityListModel.appending docsOnly
    (User.new 2 false) onlyAccountTwo "docs" "quota exceeded"
    ErrorCategory.InsufficientRemoteStorage (itemAB SyncFileItem.Status.Success)
    (by decide) (by decide)
  have h2 := C14_foreign_event_changes_no_feed ActivityListModel.appending docsOnly
    (User.new 1 true) twoAccounts "music" "quota exceeded"
    ErrorCategory.InsufficientRemoteStorage (itemAB SyncFileItem.Status.Success)
    (by decide) (by decide)
  ⟨⟨h1.1, h1.2.1, h1.2.2.2.2.1, h1.2.2.2.2.2⟩, ⟨h2.2.1, h2.2.2.2.2.2⟩⟩

/-! ## Claims on removal -/

theorem onlyCurrentAt_of_flags (m : UserModel) (j : Nat)
    (h : m._users.map User.isCurrentUser
      = (List.range m._users.length).map fun k => decide (k = j)) :
    m.onlyCurrentAt (j : Int) := by
  intro k u hu
  have hk : k < m._users.length := (List.getElem?_eq_some.1 hu).1
  have h1 : (m._users.map User.isCurrentUser)[k]? = some u.isCurrentUser := by
    rw [List.getElem?_map, hu]; rfl
  rw [h, List.getElem?_map, List.getElem?_range hk] at h1
  simp only [Option.map_some', Option.some.injEq] at h1
  rw [← h1]
  simp

/-- C18 (the code breaks the claim). The claim says that a confirmed `removeAccount(id)` on a
registry whose only flagged session is the one at the current index leaves, when sessions
remain, a current index that is in range and designates the flagged session. The code never
re-points the index. With sessions `[1 (current), 2]`, `removeAccount(0)` leaves one session and
current index `1`, out of range. With sessions `[1, 2, 3 (current)]`, `removeAccount(0)` leaves
two sessions and current index `2`, out of range. With sessions `[1 (current), 2, 3]`,
`removeAccount(0)` leaves `[2 (current), 3]` and current index `1`, which designates the
unflagged session of account `3`. -/
theorem C18_removeAccount_does_not_repoint_current_index :
    (twoAccounts.onlyCurrentAt twoAccounts.currentUserId ∧ twoAccounts.validIndex 0 ∧
      twoAccounts.removeAccount 0 true = Outcome.done firstOfTwoRemoved ∧
      firstOfTwoRemoved._users = [User.new 2 true] ∧
      firstOfTwoRemoved.currentUserId = 1 ∧
      ¬ firstOfTwoRemoved.validIndex firstOfTwoRemoved.currentUserId) ∧
    (thirdOfThreeSelected.onlyCurrentAt thirdOfThreeSelected.currentUserId ∧
      thirdOfThreeSelected.validIndex 0 ∧
      thirdOfThreeSelected.removeAccount 0 true = Outcome.done staleIndexOfTwo ∧
      staleIndexOfTwo._users = [User.new 2 false, User.new 3 true] ∧
      staleIndexOfTwo.currentUserId = 2 ∧
      ¬ staleIndexOfTwo.validIndex staleIndexOfTwo.currentUserId) ∧
    (threeAccounts.onlyCurrentAt threeAccounts.currentUserId ∧ threeAccounts.validIndex 0 ∧
      threeAccounts.removeAccount 0 true = Outcome.done firstOfThreeRemoved ∧
      firstOfThreeRemoved._users = [User.new 2 true, User.new 3 false] ∧
      firstOfThreeRemoved.currentUserId = 1 ∧
      userAt firstOfThreeRemoved._users firstOfThreeRemoved.currentUserId
        = some (User.new 3 false) ∧
      ¬ firstOfThreeRemoved.onlyCurrentAt firstOfThreeRemoved.currentUserId) := by
  refine ⟨⟨onlyCurrentAt_of_flags twoAccounts 0 (by decide), by decide, by decide, by decide,
      by decide, by decide⟩,
    ⟨onlyCurrentAt_of_flags thirdOfThreeSelected 2 (by decide), by decide, by decide,
      by decide, by decide, by decide⟩,
    ⟨onlyCurrentAt_of_flags threeAccounts 0 (by decide), by decide, by decide, by decide,
      by decide, by decide, ?_⟩⟩
  intro ho
  have h0 := (ho 0 (User.new 2 true) (by decide)).1 (by decide)
  exact absurd h0 (by decide)

/-- C19. For every registry and every valid index `id`, `removeAccount(id)` with the dialog not
confirmed completes and returns the registry as it was: the session list, every
`isCurrentUser` flag, every feed and the current index are unchanged, and the trace of
collaborator requests and notifications is unchanged, so neither sign-out nor account deletion
is requested and no structural, refresh or selection notification is emitted. -/
theorem C19_declined_removeAccount_is_noop (m : UserModel) (id : Int)
    (hid : m.validIndex id) :
    m.removeAccount id false = Outcome.done m ∧
    ∀ m1, m.removeAccount id false = Outcome.done m1 →
      m1._users = m._users ∧ m1.currentUserId = m.currentUserId ∧ m1.emitted = m.emitted := by
  obtain ⟨u, hu⟩ := @userAt_isSome_of_valid m._users id hid
  have h : m.removeAccount id false = Outcome.done m := by
    simp [UserModel.removeAccount, hu]
  refine ⟨h, ?_⟩
  intro m1 h1
  rw [h] at h1
  cases h1
  exact ⟨rfl, rfl, rfl⟩

/-- C19 (witness): declining the removal of index `1` on the registry holding accounts
`[1 (current), 2]`. -/
theorem C19_declined_removeAccount_is_noop_witness :
    twoAccounts.validIndex 1 ∧
    twoAccounts.removeAccount 1 false = Outcome.done twoAccounts ∧
    ∀ m1, twoAccounts.removeAccount 1 false = Outcome.done m1 →
      m1._users = twoAccounts._users ∧ m1.currentUserId = twoAccounts.currentUserId ∧
      m1.emitted = twoAccounts.emitted :=
  ⟨by decide, C19_declined_removeAccount_is_noop twoAccounts 1 (by decide)⟩

end OCC
